import Mathlib

/-!
# Verification development for `pkg/controller/rsm/utils.go`

Shallow embedding of the role-priority ranking, the readiness predicate, the ownership
merge, the action images and names, the replica names, the annotation scopes and the
members status of the `rsm` package, followed by the theorems proved about them.

Conventions of the embedding:
* Go `int`, `int32` and `int64` values are `Int`; the embedded code only compares them,
  so no wrap-around can occur.
* a Go pointer that may be nil is an `Option`; a slice whose nil-ness is tested by the
  code is an `Option (List _)`, any other slice is a `List`.
* a function that mutates its argument returns the new value of that argument.
-/

namespace Rsm

/-! ## Data model -/

/-- Go type `workloads.AccessMode`, a string type. -/
abbrev AccessMode := String

/-- Modelled from the spec: the constant `workloads.NoneMode` (declared under `apis/`), the
access mode `None` of the spec's enum. -/
def NoneMode : AccessMode := "None"

/-- Modelled from the spec: the constant `workloads.ReadonlyMode` (declared under `apis/`),
the access mode `Readonly` of the spec's enum. -/
def ReadonlyMode : AccessMode := "Readonly"

/-- Modelled from the spec: the constant `workloads.ReadWriteMode` (declared under `apis/`),
the access mode `ReadWrite` of the spec's enum. -/
def ReadWriteMode : AccessMode := "ReadWrite"

/-- Go type `workloads.ReplicaRole`: the fields read by the embedded code. -/
structure ReplicaRole where
  Name : String
  IsLeader : Bool
  AccessMode : AccessMode
  CanVote : Bool
deriving DecidableEq, Repr

/-- Go type `workloads.MemberStatus`; `ReplicaRole` is a pointer in the source. -/
structure MemberStatus where
  PodName : String
  ReplicaRole : Option ReplicaRole
  Ready : Bool
  ReadyWithoutPrimary : Bool
deriving DecidableEq, Repr

/-- Go type `workloads.RoleProbe`. The embedded code only tests a pointer to it
against nil, so none of its fields is modelled. -/
structure RoleProbe where
deriving DecidableEq, Repr

/-- Go type `workloads.InstanceSetSpec`: the fields read by the embedded code.
`Replicas` is a `*int32`, `Roles` a slice compared with nil, `RoleProbe` a pointer. -/
structure InstanceSetSpec where
  Replicas : Option Int
  MinReadySeconds : Int
  Roles : Option (List ReplicaRole)
  RoleProbe : Option RoleProbe
deriving DecidableEq, Repr

/-- Go type `workloads.InstanceSetStatus` (with the embedded `StatefulSetStatus`):
the fields read by the embedded code. -/
structure InstanceSetStatus where
  ObservedGeneration : Int
  Replicas : Int
  ReadyReplicas : Int
  UpdatedReplicas : Int
  AvailableReplicas : Int
  InitReplicas : Int
  ReadyInitReplicas : Int
  CurrentGeneration : Int
  MembersStatus : List MemberStatus
deriving DecidableEq, Repr

/-- Go type `workloads.InstanceSet`: object generation, spec and status. -/
structure InstanceSet where
  Generation : Int
  Spec : InstanceSetSpec
  Status : InstanceSetStatus
deriving DecidableEq, Repr

/-! ## Readiness -/

/-- Test `status.ReplicaRole != nil && status.ReplicaRole.IsLeader` of the member loop. -/
def memberIsLeader (status : MemberStatus) : Bool :=
  match status.ReplicaRole with
  | some role => role.IsLeader
  | none => false

/-- The loop over `membersStatus` at the end of `IsInstanceSetReady`, together with the
final `return hasLeader`: a member that is ready without primary returns true at once, a
leader sets `hasLeader` and breaks, and an exhausted list leaves `hasLeader` false. -/
def hasLeaderLoop : List MemberStatus → Bool
  | [] => false
  | status :: rest =>
    if status.ReadyWithoutPrimary then true
    else if memberIsLeader status then true
    else hasLeaderLoop rest

/-- Go function `IsInstanceSetReady`; the argument is a pointer in the source. -/
def IsInstanceSetReady (rsm : Option InstanceSet) : Bool :=
  match rsm with
  | none => false
  | some rsm =>
    -- check whether the rsm cluster has been initialized
    if rsm.Status.ReadyInitReplicas ≠ rsm.Status.InitReplicas then false
    -- check whether latest spec has been sent to the underlying workload
    else if rsm.Status.ObservedGeneration ≠ rsm.Generation
        ∨ rsm.Status.CurrentGeneration ≠ rsm.Generation then false
    else
      -- check whether the underlying workload is ready
      match rsm.Spec.Replicas with
      | none => false
      | some replicas =>
        if rsm.Status.Replicas ≠ replicas
            ∨ rsm.Status.ReadyReplicas ≠ replicas
            ∨ rsm.Status.UpdatedReplicas ≠ replicas then false
        -- check availableReplicas only if minReadySeconds is set
        else if rsm.Spec.MinReadySeconds > 0 ∧ rsm.Status.AvailableReplicas ≠ replicas then false
        -- check whether role probe has done
        else if rsm.Spec.Roles = none ∨ rsm.Spec.RoleProbe = none then true
        else if (rsm.Status.MembersStatus.length : Int) ≠ replicas then false
        else hasLeaderLoop rsm.Status.MembersStatus

/-! ## Ownership -/

/-- Go type `metav1.OwnerReference`; `Controller` and `BlockOwnerDeletion` are `*bool`. -/
structure OwnerReference where
  APIVersion : String
  Kind : String
  Name : String
  UID : String
  Controller : Option Bool
  BlockOwnerDeletion : Option Bool
deriving DecidableEq, Repr

/-- The part of a `client.Object` that `CopyOwnership` reads and writes: the owner
references, the finalizers, and whether the dynamic type of the object is
`*corev1.PersistentVolumeClaim` (the type assertion of the source). -/
structure Object where
  OwnerReferences : List OwnerReference
  Finalizers : List String
  IsPersistentVolumeClaim : Bool
deriving DecidableEq, Repr

/-- Go type `schema.GroupVersion`. -/
structure GroupVersion where
  Group : String
  Version : String
deriving DecidableEq, Repr

/-- Library function `schema.ParseGroupVersion` (k8s.io/apimachinery): the empty string
and `/` parse to the empty group-version, a string without a slash is a version of the
empty group, a string with one slash is split at it, and a string with more slashes is an
error (`none`). -/
def ParseGroupVersion (gv : String) : Option GroupVersion :=
  if gv.data.length = 0 ∨ gv = "/" then some ⟨"", ""⟩
  else
    match gv.data.count '/' with
    | 0 => some ⟨"", gv⟩
    | 1 => some ⟨String.mk (gv.data.takeWhile (fun c => c != '/')),
        String.mk ((gv.data.dropWhile (fun c => c != '/')).drop 1)⟩
    | _ => none

/-- Closure `referSameObject` of `CopyOwnership`: true if `a` and `b` point to the same
object; an API version that does not parse gives false. -/
def referSameObject (a b : OwnerReference) : Bool :=
  match ParseGroupVersion a.APIVersion with
  | none => false
  | some aGV =>
    match ParseGroupVersion b.APIVersion with
    | none => false
    | some bGV => aGV.Group == bGV.Group && a.Kind == b.Kind && a.Name == b.Name

/-- Closure `indexOwnerRef` of `CopyOwnership`: the index of the first owner reference
that refers to the same object as `ref`; `none` stands for the source's `-1`. -/
def indexOwnerRef : List OwnerReference → OwnerReference → Option Nat
  | [], _ => none
  | r :: rest, ref =>
    if referSameObject r ref then some 0
    else (indexOwnerRef rest ref).map (fun index => index + 1)

/-- Closure `upsertOwnerRef` of `CopyOwnership`: replace the reference found by
`indexOwnerRef`, or append when there is none. -/
def upsertOwnerRef (ref : OwnerReference) (object : Object) : Object :=
  let owners := object.OwnerReferences
  match indexOwnerRef owners ref with
  | none => { object with OwnerReferences := owners ++ [ref] }
  | some idx => { object with OwnerReferences := owners.set idx ref }

/-- Test `ref.Controller != nil && *ref.Controller`. -/
def isController (ref : OwnerReference) : Bool :=
  match ref.Controller with
  | some c => c
  | none => false

/-- Library function `metav1.GetControllerOf`: the first owner reference whose
`Controller` flag is set and true, if any. -/
def GetControllerOf (obj : Object) : Option OwnerReference :=
  obj.OwnerReferences.find? isController

/-- Library function `controllerutil.ContainsFinalizer`. -/
def ContainsFinalizer (obj : Object) (finalizer : String) : Bool :=
  obj.Finalizers.any (fun e => e == finalizer)

/-- Library function `controllerutil.AddFinalizer`: returns the object and whether its
finalizers were updated; a finalizer already present is not added again. -/
def AddFinalizer (obj : Object) (finalizer : String) : Object × Bool :=
  if obj.Finalizers.any (fun e => e == finalizer) then (obj, false)
  else ({ obj with Finalizers := obj.Finalizers ++ [finalizer] }, true)

/-- The two errors `CopyOwnership` can return: `controllerutil.AlreadyOwnedError`, which
carries the existing controller reference of the object (its `Object` field points to
the object itself), and the sentinel `intctrlutil.ErrFailedToAddFinalizer`. -/
inductive OwnershipError where
  | AlreadyOwnedError (Owner : OwnerReference)
  | ErrFailedToAddFinalizer
deriving DecidableEq, Repr

/-- The loop of `CopyOwnership` over the owner references of the owner. It returns the
object as the loop leaves it and the error of the early return, if any. -/
def copyControllerRefs : List OwnerReference → Object → Object × Option OwnershipError
  | [], obj => (obj, none)
  | ref :: rest, obj =>
    if !isController ref then copyControllerRefs rest obj
    else
      -- Return early with an error if the object is already controlled.
      match GetControllerOf obj with
      | some existing =>
        if !referSameObject existing ref then (obj, some (.AlreadyOwnedError existing))
        else copyControllerRefs rest (upsertOwnerRef ref obj)
      | none => copyControllerRefs rest (upsertOwnerRef ref obj)

/-- Go function `CopyOwnership`. The object is mutated in place in the source; the model
returns its final value together with the returned error (`none` for nil). The `scheme`
argument is not used by the source. -/
def CopyOwnership (owner obj : Object) (finalizer : String) : Object × Option OwnershipError :=
  match copyControllerRefs owner.OwnerReferences obj with
  | (obj, some err) => (obj, some err)
  | (obj, none) =>
    if !ContainsFinalizer obj finalizer then
      -- pvc objects do not need to add finalizer
      if !obj.IsPersistentVolumeClaim then
        match AddFinalizer obj finalizer with
        | (obj, false) => (obj, some .ErrFailedToAddFinalizer)
        | (obj, true) => (obj, none)
      else (obj, none)
    else (obj, none)

/-! ## Ranking -/

/-- Priority tiers, from `leaderPriority = 1 << 5` down to `emptyPriority = 1 << 0`. -/
def leaderPriority : Int := 2 ^ 5
/-- Tier `followerReadWritePriority = 1 << 4`. -/
def followerReadWritePriority : Int := 2 ^ 4
/-- Tier `followerReadonlyPriority = 1 << 3`. -/
def followerReadonlyPriority : Int := 2 ^ 3
/-- Tier `followerNonePriority = 1 << 2`. -/
def followerNonePriority : Int := 2 ^ 2
/-- Tier `learnerPriority = 1 << 1`. -/
def learnerPriority : Int := 2 ^ 1
/-- Tier `emptyPriority = 1 << 0`. -/
def emptyPriority : Int := 2 ^ 0

/-- A Go `map[string]int` as an association list with at most one entry per key. -/
abbrev PriorityMap := List (String × Int)

/-- Go map read `m[key]`: the stored value, or the zero value when the key is absent. -/
def mapIndex (m : PriorityMap) (key : String) : Int :=
  (m.lookup key).getD 0

/-- Go map write `m[key] = value`: an existing entry of the key is overwritten. -/
def mapSet (m : PriorityMap) (key : String) (value : Int) : PriorityMap :=
  (key, value) :: m.filter (fun e => e.1 != key)

/-- Go function `ComposeRolePriorityMap`. The library function `strings.ToLower` is the
parameter `ToLower`. The inner `switch` has no default: an access mode other than the
three constants leaves the map as it is. -/
def ComposeRolePriorityMap (ToLower : String → String) (roles : List ReplicaRole) :
    PriorityMap :=
  roles.foldl (fun rolePriorityMap role =>
    let roleName := ToLower role.Name
    if role.IsLeader then mapSet rolePriorityMap roleName leaderPriority
    else if role.CanVote then
      if role.AccessMode = NoneMode then mapSet rolePriorityMap roleName followerNonePriority
      else if role.AccessMode = ReadonlyMode then
        mapSet rolePriorityMap roleName followerReadonlyPriority
      else if role.AccessMode = ReadWriteMode then
        mapSet rolePriorityMap roleName followerReadWritePriority
      else rolePriorityMap
    else mapSet rolePriorityMap roleName learnerPriority)
    (mapSet [] "" emptyPriority)

/-- Inner loop of the insertion sort of the library function `sort.SliceStable`
(`for j := i; j > a && less(j, j-1); j--  swap(j, j-1)`): the new element `x` moves left
past every element it is less than. The sorted part is held last element first. -/
def sinkLeft {T : Type} (less : T → T → Bool) (x : T) : List T → List T
  | [] => [x]
  | y :: sortedRev => if less x y then y :: sinkLeft less x sortedRev else x :: y :: sortedRev

/-- Library function `sort.SliceStable`, as the stable insertion sort it runs on each
block: the elements are inserted from left to right into the sorted part before them.
(The library merges blocks of 20 elements with a stable in-place merge; for a `less` that
is a strict weak order, as here, a stable sort has only one possible result.) -/
def SliceStable {T : Type} (less : T → T → Bool) (items : List T) : List T :=
  (items.foldl (fun sortedRev x => sinkLeft less x sortedRev) []).reverse

/-- The `less` closure of `sortMembers`. In the source `getRoleFunc` and `getOrdinalFunc`
take an index; both callers (`SortPods`, `sortMembersStatus`) pass closures that read the
item at that index of the slice being sorted, so the model takes them on the items. -/
def sortMembersLess {T : Type} (rolePriorityMap : PriorityMap)
    (getRoleFunc : T → String) (getOrdinalFunc : T → Int) (reverse : Bool) (i j : T) : Bool :=
  let (i, j) := if reverse then (j, i) else (i, j)
  let roleI := getRoleFunc i
  let roleJ := getRoleFunc j
  if mapIndex rolePriorityMap roleI = mapIndex rolePriorityMap roleJ then
    let ordinal1 := getOrdinalFunc i
    let ordinal2 := getOrdinalFunc j
    decide (ordinal1 < ordinal2)
  else decide (mapIndex rolePriorityMap roleI < mapIndex rolePriorityMap roleJ)

/-- Go function `sortMembers`: sorts items by role priority and pod ordinal. The slice is
sorted in place in the source; the model returns the sorted slice. -/
def sortMembers {T : Type} (items : List T) (rolePriorityMap : PriorityMap)
    (getRoleFunc : T → String) (getOrdinalFunc : T → Int) (reverse : Bool) : List T :=
  SliceStable (sortMembersLess rolePriorityMap getRoleFunc getOrdinalFunc reverse) items

/-- Sort key of an item: its role priority (0 for a role absent from the map), then its
ordinal, compared lexicographically. -/
def memberKey {T : Type} (rolePriorityMap : PriorityMap)
    (getRoleFunc : T → String) (getOrdinalFunc : T → Int) (item : T) : Lex (Int × Int) :=
  toLex (mapIndex rolePriorityMap (getRoleFunc item), getOrdinalFunc item)

/-- The tier of a role in the words of the specification: leader tier for a leader;
otherwise, for a voting role, the follower tier of its access mode (read-write, readonly,
none); otherwise the learner tier. It is used for roles whose access mode is one of the
three constants. -/
def specRoleTier (role : ReplicaRole) : Int :=
  if role.IsLeader then leaderPriority
  else if role.CanVote then
    if role.AccessMode = ReadWriteMode then followerReadWritePriority
    else if role.AccessMode = ReadonlyMode then followerReadonlyPriority
    else followerNonePriority
  else learnerPriority

/-! ## Action images -/

/-- Go type `workloads.Action`. -/
structure Action where
  Image : String
  Command : List String
  Args : List String
deriving DecidableEq, Repr

/-- Go type `workloads.MembershipReconfiguration`; every action is a pointer. -/
structure MembershipReconfiguration where
  SwitchoverAction : Option Action
  MemberJoinAction : Option Action
  MemberLeaveAction : Option Action
  LogSyncAction : Option Action
  PromoteAction : Option Action
deriving DecidableEq, Repr

/-- The package constants read by `findActionImage`, declared in another file of the
package: the five job types and the default action image. They are parameters of the
embedding. -/
structure ActionConstants where
  jobTypeSwitchover : String
  jobTypeMemberJoinNotifying : String
  jobTypeMemberLeaveNotifying : String
  jobTypeLogSync : String
  jobTypePromote : String
  defaultActionImage : String
deriving DecidableEq, Repr

/-- The five job types are pairwise distinct: they are the constant cases of one Go
`switch`, which the compiler rejects when two of them coincide. -/
def ActionConstants.Distinct (c : ActionConstants) : Prop :=
  [c.jobTypePromote, c.jobTypeLogSync, c.jobTypeMemberLeaveNotifying,
    c.jobTypeMemberJoinNotifying, c.jobTypeSwitchover].Nodup

/-- Closure `getImage` of `findActionImage`: the image of a present action with a
non-empty image, the empty string otherwise. -/
def getImage (action : Option Action) : String :=
  match action with
  | some action => if action.Image.length > 0 then action.Image else ""
  | none => ""

/-- Body of `case jobTypeSwitchover` of `findActionImage`, the end of the chain. -/
def caseSwitchover (c : ActionConstants) (reconfiguration : MembershipReconfiguration) :
    String :=
  let image := getImage reconfiguration.SwitchoverAction
  if image.length > 0 then image else c.defaultActionImage

/-- Body of `case jobTypeMemberJoinNotifying`, which falls through to the next case. -/
def caseMemberJoinNotifying (c : ActionConstants)
    (reconfiguration : MembershipReconfiguration) : String :=
  let image := getImage reconfiguration.MemberJoinAction
  if image.length > 0 then image else caseSwitchover c reconfiguration

/-- Body of `case jobTypeMemberLeaveNotifying`, which falls through to the next case. -/
def caseMemberLeaveNotifying (c : ActionConstants)
    (reconfiguration : MembershipReconfiguration) : String :=
  let image := getImage reconfiguration.MemberLeaveAction
  if image.length > 0 then image else caseMemberJoinNotifying c reconfiguration

/-- Body of `case jobTypeLogSync`, which falls through to the next case. -/
def caseLogSync (c : ActionConstants) (reconfiguration : MembershipReconfiguration) :
    String :=
  let image := getImage reconfiguration.LogSyncAction
  if image.length > 0 then image else caseMemberLeaveNotifying c reconfiguration

/-- Body of `case jobTypePromote`, which falls through to the next case. -/
def casePromote (c : ActionConstants) (reconfiguration : MembershipReconfiguration) :
    String :=
  let image := getImage reconfiguration.PromoteAction
  if image.length > 0 then image else caseLogSync c reconfiguration

/-- Go function `findActionImage`; `reconfiguration` is a pointer in the source. The
`switch` takes the first case equal to `actionType` and no case gives the final
`return ""`. -/
def findActionImage (c : ActionConstants) (reconfiguration : Option MembershipReconfiguration)
    (actionType : String) : String :=
  match reconfiguration with
  | none => ""
  | some reconfiguration =>
    if actionType = c.jobTypePromote then casePromote c reconfiguration
    else if actionType = c.jobTypeLogSync then caseLogSync c reconfiguration
    else if actionType = c.jobTypeMemberLeaveNotifying then
      caseMemberLeaveNotifying c reconfiguration
    else if actionType = c.jobTypeMemberJoinNotifying then
      caseMemberJoinNotifying c reconfiguration
    else if actionType = c.jobTypeSwitchover then caseSwitchover c reconfiguration
    else ""

/-- The fallback chain of the specification as a list of job types:
promote, logSync, memberLeave, memberJoin, switchover. -/
def actionChain (c : ActionConstants) : List String :=
  [c.jobTypePromote, c.jobTypeLogSync, c.jobTypeMemberLeaveNotifying,
    c.jobTypeMemberJoinNotifying, c.jobTypeSwitchover]

/-- The image configured for each position of the chain: the image of the action, or the
empty string when the action is missing. -/
def configuredImages (reconfiguration : MembershipReconfiguration) : List String :=
  [reconfiguration.PromoteAction, reconfiguration.LogSyncAction,
    reconfiguration.MemberLeaveAction, reconfiguration.MemberJoinAction,
    reconfiguration.SwitchoverAction].map
    (fun action => match action with
      | some action => action.Image
      | none => "")

/-- Image resolution in the words of the specification: starting at a position of the
chain, walk forward to the first non-empty configured image; the default image if there
is none. -/
def specActionImage (c : ActionConstants) (reconfiguration : MembershipReconfiguration)
    (position : Nat) : String :=
  (((configuredImages reconfiguration).drop position).find? (fun image => image != "")).getD
    c.defaultActionImage

/-! ## Replica names -/

/-- The decimal digit character of a number below ten. -/
def digitChar (d : Nat) : Char :=
  match d with
  | 0 => '0'
  | 1 => '1'
  | 2 => '2'
  | 3 => '3'
  | 4 => '4'
  | 5 => '5'
  | 6 => '6'
  | 7 => '7'
  | 8 => '8'
  | _ => '9'

/-- Decimal digits of a natural number, most significant first and without leading
zeros; the first argument bounds the number of digits (`n + 1` is enough for `n`). -/
def formatNatDigits : Nat → Nat → List Char
  | 0, _ => []
  | fuel + 1, n =>
    if n < 10 then [digitChar n]
    else formatNatDigits fuel (n / 10) ++ [digitChar (n % 10)]

/-- The verb `%d` of `fmt.Sprintf` on a Go `int`: decimal digits, with a minus sign in
front for a negative number. -/
def formatInt (n : Int) : String :=
  match n with
  | Int.ofNat m => String.mk (formatNatDigits (m + 1) m)
  | Int.negSucc m => String.mk ('-' :: formatNatDigits (m + 2) (m + 1))

/-- Go function `getPodName`: `fmt.Sprintf("%s-%d", parent, ordinal)`. -/
def getPodName (parent : String) (ordinal : Int) : String :=
  parent ++ "-" ++ formatInt ordinal

/-- `podNameRegex.FindStringSubmatch` for `podNameRegex = (.*)-([0-9]+)$`, `none` for nil.
The second group has no hyphen and `$` is the end of the text, so a match ends with the
last hyphen followed by the digits after it, which must be all that follows and at least
one. The match is the leftmost one and `.` does not match a newline, so the first group
starts after the last newline before that hyphen. The result lists the whole match, the
first group and the second group. -/
def podNameRegexFindStringSubmatch (s : String) : Option (List String) :=
  let reversed := s.data.reverse
  let digits := (reversed.takeWhile Char.isDigit).reverse
  match reversed.dropWhile Char.isDigit with
  | [] => none
  | c :: before =>
    if c = '-' ∧ digits ≠ [] then
      let group1 := (before.takeWhile (fun x => x != '\n')).reverse
      some [String.mk (group1 ++ '-' :: digits), String.mk group1, String.mk digits]
    else none

/-- The two error kinds of `strconv.NumError`. -/
inductive NumError where
  | ErrSyntax
  | ErrRange
deriving DecidableEq, Repr

/-- Value of a decimal digit character. -/
def digitValue (c : Char) : Nat :=
  c.toNat - '0'.toNat

/-- Reads decimal digits onto the number read so far; `none` at a character that is not a
decimal digit. -/
def parseDigitsFrom (n : Nat) : List Char → Option Nat
  | [] => some n
  | c :: rest => if c.isDigit then parseDigitsFrom (n * 10 + digitValue c) rest else none

/-- Library function `strconv.Atoi` for a 64-bit `int`: an optional sign followed by at
least one decimal digit; a syntax error gives 0, a value outside the `int` range gives
the nearest bound together with a range error. -/
def Atoi (s : String) : Int × Option NumError :=
  match s.data with
  | [] => (0, some .ErrSyntax)
  | c :: rest =>
    let neg := c == '-'
    let digits := if c == '-' || c == '+' then rest else c :: rest
    if digits = [] then (0, some .ErrSyntax)
    else
      match parseDigitsFrom 0 digits with
      | none => (0, some .ErrSyntax)
      | some un =>
        if !neg && un ≥ 2 ^ 63 then (2 ^ 63 - 1, some .ErrRange)
        else if neg && un > 2 ^ 63 then (-(2 ^ 63), some .ErrRange)
        else (if neg then -(un : Int) else (un : Int), none)

/-- The errors `getPodOrdinal` can return: its own `wrong pod name` error and the error
of `strconv.Atoi`. -/
inductive PodOrdinalError where
  | WrongPodName (podName : String)
  | AtoiError (err : NumError)
deriving DecidableEq, Repr

/-- Go function `getPodOrdinal`: the ordinal and the error (`none` for nil). -/
def getPodOrdinal (podName : String) : Int × Option PodOrdinalError :=
  match podNameRegexFindStringSubmatch podName with
  | none => (0, some (.WrongPodName podName))
  | some subMatches =>
    if subMatches.length < 3 then (0, some (.WrongPodName podName))
    else
      match Atoi (subMatches.getD 2 "") with
      | (ordinal, none) => (ordinal, none)
      | (ordinal, some err) => (ordinal, some (.AtoiError err))

/-! ## Annotation scopes -/

/-- Go type `AnnotationScope`, a string type. -/
abbrev AnnotationScope := String

/-- Modelled from the spec: the constant `RootScope` (declared in another file of the
package), the distinguished root scope, which has no suffix. -/
def RootScope : AnnotationScope := ""

/-- A Go `map[string]string` that is not nil: finitely many entries, one per key. The
order of the entries stands for the order in which a `range` loop visits them, which Go
leaves open. -/
abbrev Annotations := AList (fun _ : String => String)

/-- Go map read `v, ok := m[key]`; reading a nil map finds nothing. -/
def annotationsGet (m : Option Annotations) (key : String) : Option String :=
  match m with
  | none => none
  | some m => m.lookup key

/-- Library function `strings.HasSuffix`. The model compares characters where the library
compares bytes; on valid UTF-8 text the two agree, as the encoding of a character never
starts inside the encoding of another. -/
def HasSuffix (s suffix : String) : Bool :=
  decide (suffix.data <:+ s.data)

/-- Library function `strings.TrimSuffix`. -/
def TrimSuffix (s suffix : String) : String :=
  if HasSuffix s suffix then String.mk (s.data.take (s.data.length - suffix.data.length))
  else s

/-- Go function `AddAnnotationScope`; the key is `fmt.Sprintf("%s%s", k, scope)`. -/
def AddAnnotationScope (scope : AnnotationScope) (annotations : Option Annotations) :
    Option Annotations :=
  match annotations with
  | none => none
  | some annotations =>
    some (annotations.entries.foldl
      (fun scopedAnnotations e => scopedAnnotations.insert (e.1 ++ scope) e.2) ∅)

/-- Go function `ParseAnnotationsOfScope`. The package constant `scopeSuffix`, declared in
another file of the package, is the parameter `scopeSuffix`. -/
def ParseAnnotationsOfScope (scopeSuffix : String) (scope : AnnotationScope)
    (scopedAnnotations : Option Annotations) : Option Annotations :=
  match scopedAnnotations with
  | none => none
  | some scopedAnnotations =>
    if scope = RootScope then
      some (scopedAnnotations.entries.foldl
        (fun annotations e =>
          if HasSuffix e.1 scopeSuffix then annotations else annotations.insert e.1 e.2) ∅)
    else
      some (scopedAnnotations.entries.foldl
        (fun annotations e =>
          if HasSuffix e.1 scope then annotations.insert (TrimSuffix e.1 scope) e.2
          else annotations) ∅)

/-! ## Action names -/

/-- Go function `getActionName`:
`fmt.Sprintf("%s-%d-%d-%s", parent, generation, ordinal, actionType)`. -/
def getActionName (parent : String) (generation ordinal : Int) (actionType : String) : String :=
  parent ++ "-" ++ formatInt generation ++ "-" ++ formatInt ordinal ++ "-" ++ actionType

/-! ## Members status -/

/-- The part of a `corev1.Pod` that `SetMembersStatus` reads itself: the name and the
labels (a `map[string]string`, nil when absent). -/
structure Pod where
  Name : String
  Labels : Option Annotations

/-- What `SetMembersStatus` takes from outside `utils.go`: the label keys
`constant.RoleLabelKey` and `constant.ReadyWithoutPrimaryKey`, the helper
`intctrlutil.PodIsReadyWithLabel` and the library function `podutils.IsPodReady`, both
of which read parts of the pod that are not modelled. They are parameters of the
embedding. -/
structure PodHelpers where
  RoleLabelKey : String
  ReadyWithoutPrimaryKey : String
  PodIsReadyWithLabel : Pod → Bool
  IsPodReady : Pod → Bool

/-- Go function `GetRoleName`: `strings.ToLower(pod.Labels[constant.RoleLabelKey])`; an
absent label reads as the empty string. -/
def GetRoleName (ToLower : String → String) (helpers : PodHelpers) (pod : Pod) : String :=
  ToLower ((annotationsGet pod.Labels helpers.RoleLabelKey).getD "")

/-- Go function `composeRoleMap`: the declared roles under their lower-cased names; a
later role overwrites an earlier one of the same lower-cased name. -/
def composeRoleMap (ToLower : String → String) (rsm : InstanceSet) :
    AList (fun _ : String => ReplicaRole) :=
  (rsm.Spec.Roles.getD []).foldl
    (fun roleMap role => roleMap.insert (ToLower role.Name) role) ∅

/-- Go function `sortMembersStatus`. The role closure reads
`membersStatus[i].ReplicaRole.Name` (not lower-cased) and the ordinal closure drops the
error of `getPodOrdinal`. The role closure dereferences the role pointer: the sort
compares every element of a slice of two or more elements, so such a slice with a nil
role panics, which is the result `none`. -/
def sortMembersStatus (membersStatus : List MemberStatus) (rolePriorityMap : PriorityMap) :
    Option (List MemberStatus) :=
  if 2 ≤ membersStatus.length ∧ membersStatus.any (fun m => m.ReplicaRole.isNone) then none
  else
    some (sortMembers membersStatus rolePriorityMap
      (fun m => match m.ReplicaRole with
        | some role => role.Name
        | none => "")
      (fun m => (getPodOrdinal m.PodName).1) true)

/-- Go function `setMembersStatusWithoutRole`: one member per pod, stably sorted by pod
name (`slices.SortStableFunc` with `a.PodName < b.PodName`). -/
def setMembersStatusWithoutRole (helpers : PodHelpers) (rsm : InstanceSet) (pods : List Pod) :
    InstanceSet :=
  let membersStatus := pods.foldl
    (fun membersStatus pod =>
      membersStatus ++ [{ PodName := pod.Name, ReplicaRole := none,
                          Ready := helpers.IsPodReady pod, ReadyWithoutPrimary := false }]) []
  { rsm with Status := { rsm.Status with
      MembersStatus := SliceStable (fun a b => decide (a.PodName < b.PodName)) membersStatus } }

/-- The loop of `SetMembersStatus` over the pods: a pod that is not ready with a role label
or whose role name is not in the role map is skipped, any other pod appends a member. -/
def composeMembersStatus (ToLower : String → String) (helpers : PodHelpers)
    (roleMap : AList (fun _ : String => ReplicaRole)) (pods : List Pod) : List MemberStatus :=
  pods.foldl
    (fun newMembersStatus pod =>
      if !helpers.PodIsReadyWithLabel pod then newMembersStatus
      else
        let roleName := GetRoleName ToLower helpers pod
        match roleMap.lookup roleName with
        | none => newMembersStatus
        | some role =>
          let readyWithoutPrimary :=
            match annotationsGet pod.Labels helpers.ReadyWithoutPrimaryKey with
            | some value => value == "true"
            | none => false
          newMembersStatus ++ [{ PodName := pod.Name, ReplicaRole := some role, Ready := true,
                                 ReadyWithoutPrimary := readyWithoutPrimary }]) []

/-- Go function `SetMembersStatus`. The instance set is updated in place in the source;
the model returns its new value, or `none` when the source panics. -/
def SetMembersStatus (ToLower : String → String) (helpers : PodHelpers) (rsm : InstanceSet)
    (pods : List Pod) : Option InstanceSet :=
  match rsm.Spec.Roles with
  -- no roles defined
  | none => some (setMembersStatusWithoutRole helpers rsm pods)
  | some roles =>
    -- compose new status
    let roleMap := composeRoleMap ToLower rsm
    let newMembersStatus := composeMembersStatus ToLower helpers roleMap pods
    -- sort and set
    let rolePriorityMap := ComposeRolePriorityMap ToLower roles
    match sortMembersStatus newMembersStatus rolePriorityMap with
    | none => none
    | some sorted => some { rsm with Status := { rsm.Status with MembersStatus := sorted } }

/-- The member the specification gives to a pod when the roles `roles` are declared: a
pod that is ready with a role label and whose lower-cased role label is the lower-cased
name of a declared role (the last one of that name) gets a member with its name, that
role, `Ready = true` and `ReadyWithoutPrimary` set exactly when its ready-without-primary
label is `true`; any other pod gets none. -/
def specMemberStatus (ToLower : String → String) (helpers : PodHelpers)
    (roles : List ReplicaRole) (pod : Pod) : Option MemberStatus :=
  if helpers.PodIsReadyWithLabel pod then
    match roles.reverse.find?
        (fun role => ToLower role.Name == GetRoleName ToLower helpers pod) with
    | some role =>
      some { PodName := pod.Name, ReplicaRole := some role, Ready := true,
             ReadyWithoutPrimary :=
               decide (annotationsGet pod.Labels helpers.ReadyWithoutPrimaryKey = some "true") }
    | none => none
  else none

/-- The tier of the role of a member, 0 for a member without role. -/
def memberTier (m : MemberStatus) : Int :=
  match m.ReplicaRole with
  | some role => specRoleTier role
  | none => 0

/-! ## Example objects -/

/-- Controller reference to the stateful set `db`, at API version `apps/v1`. -/
def refDbV1 : OwnerReference :=
  { APIVersion := "apps/v1", Kind := "StatefulSet", Name := "db", UID := "3f1c",
    Controller := some true, BlockOwnerDeletion := some true }

/-- Controller reference to the same stateful set `db`, recorded at the older API version
`apps/v1beta1`. -/
def refDbV1beta1 : OwnerReference :=
  { APIVersion := "apps/v1beta1", Kind := "StatefulSet", Name := "db", UID := "3f1c",
    Controller := some true, BlockOwnerDeletion := some true }

/-- Plain (non-controller) reference to the stateful set `db`. -/
def refDbPlain : OwnerReference :=
  { APIVersion := "apps/v1", Kind := "StatefulSet", Name := "db", UID := "3f1c",
    Controller := none, BlockOwnerDeletion := none }

/-- Controller reference to another stateful set, `cache`. -/
def refCache : OwnerReference :=
  { APIVersion := "apps/v1", Kind := "StatefulSet", Name := "cache", UID := "9ab2",
    Controller := some true, BlockOwnerDeletion := some true }

/-- A lower-casing function for the examples: the ASCII letters `A` to `Z` are mapped to
`a` to `z`, every other character is kept. On ASCII strings it agrees with
`strings.ToLower`. -/
def asciiToLower (s : String) : String :=
  String.mk (s.data.map (fun c => if 'A' ≤ c ∧ c ≤ 'Z' then Char.ofNat (c.toNat + 32) else c))

/-- Sample values for the package constants of the action jobs. -/
def sampleConstants : ActionConstants :=
  { jobTypeSwitchover := "switchover", jobTypeMemberJoinNotifying := "member-join",
    jobTypeMemberLeaveNotifying := "member-leave", jobTypeLogSync := "log-sync",
    jobTypePromote := "promote", defaultActionImage := "busybox:latest" }

/-- A policy in which only the switchover action has an image. -/
def switchoverOnly : MembershipReconfiguration :=
  { SwitchoverAction := some ⟨"registry/switchover:1", [], []⟩,
    MemberJoinAction := some ⟨"", ["join"], []⟩, MemberLeaveAction := none,
    LogSyncAction := none, PromoteAction := none }

/-- An instance set with three declared replicas, a leader and a follower role and a
role probe, whose generations and counters all pass, and whose member list holds the
leader and two members without a role. -/
def readyWithUnassignedMembers : InstanceSet :=
  { Generation := 4
    Spec := { Replicas := some 3, MinReadySeconds := 0,
              Roles := some [⟨"leader", true, ReadWriteMode, true⟩,
                ⟨"follower", false, ReadonlyMode, true⟩],
              RoleProbe := some {} }
    Status := { ObservedGeneration := 4, Replicas := 3, ReadyReplicas := 3,
                UpdatedReplicas := 3, AvailableReplicas := 3, InitReplicas := 3,
                ReadyInitReplicas := 3, CurrentGeneration := 4,
                MembersStatus :=
                  [⟨"db-0", some ⟨"leader", true, ReadWriteMode, true⟩, true, false⟩,
                   ⟨"db-1", none, true, false⟩, ⟨"db-2", none, true, false⟩] } }

/-- Sample values for the helpers of `SetMembersStatus`: two label keys, and pods that
count as ready with label when they carry the role label. -/
def sampleHelpers : PodHelpers :=
  { RoleLabelKey := "kubeblocks.io/role",
    ReadyWithoutPrimaryKey := "kubeblocks.io/ready-without-primary",
    PodIsReadyWithLabel := fun pod => (annotationsGet pod.Labels "kubeblocks.io/role").isSome,
    IsPodReady := fun _ => true }

/-- A pod with the given name and role label. -/
def podWithRole (name role : String) : Pod :=
  { Name := name, Labels := some ((∅ : Annotations).insert "kubeblocks.io/role" role) }

/-- An instance set that declares the roles `Leader` (leader) and `Follower` (voting,
readonly), spelled with capitals. -/
def capitalRoles : InstanceSet :=
  { Generation := 1
    Spec := { Replicas := some 3, MinReadySeconds := 0,
              Roles := some [⟨"Leader", true, ReadWriteMode, true⟩,
                ⟨"Follower", false, ReadonlyMode, true⟩],
              RoleProbe := some {} }
    Status := { ObservedGeneration := 1, Replicas := 3, ReadyReplicas := 3,
                UpdatedReplicas := 3, AvailableReplicas := 3, InitReplicas := 3,
                ReadyInitReplicas := 3, CurrentGeneration := 1, MembersStatus := [] } }

/-- An instance set that declares an empty, non-nil list of roles and a role probe, with
three declared replicas and every generation and counter passing; the member list is the
argument. -/
def emptyRolesDeclared (members : List MemberStatus) : InstanceSet :=
  { Generation := 2
    Spec := { Replicas := some 3, MinReadySeconds := 0, Roles := some [],
              RoleProbe := some {} }
    Status := { ObservedGeneration := 2, Replicas := 3, ReadyReplicas := 3,
                UpdatedReplicas := 3, AvailableReplicas := 3, InitReplicas := 3,
                ReadyInitReplicas := 3, CurrentGeneration := 2, MembersStatus := members } }

/-- The instance set `readyWithUnassignedMembers` with the member list that a status
refresh over a leader pod `db-0` and two follower pods `db-1` and `db-2` stores. -/
def refreshedMembers : InstanceSet :=
  { readyWithUnassignedMembers with
    Status := { readyWithUnassignedMembers.Status with
      MembersStatus :=
        [⟨"db-0", some ⟨"leader", true, ReadWriteMode, true⟩, true, false⟩,
         ⟨"db-2", some ⟨"follower", false, ReadonlyMode, true⟩, true, false⟩,
         ⟨"db-1", some ⟨"follower", false, ReadonlyMode, true⟩, true, false⟩] } }

/-! ## Theorems: readiness -/

/-- The member loop answers true exactly when some member is ready without primary or
some member carries a leader role. -/
theorem hasLeaderLoop_iff (members : List MemberStatus) :
    hasLeaderLoop members = true ↔
      (∃ m ∈ members, m.ReadyWithoutPrimary = true) ∨
      (∃ m ∈ members, ∃ role, m.ReplicaRole = some role ∧ role.IsLeader = true) := by
  induction members with
  | nil => simp [hasLeaderLoop]
  | cons status rest ih =>
    have hlead : memberIsLeader status = true ↔
        ∃ role, status.ReplicaRole = some role ∧ role.IsLeader = true := by
      unfold memberIsLeader
      cases status.ReplicaRole <;> simp
    unfold hasLeaderLoop
    by_cases h1 : status.ReadyWithoutPrimary = true
    · rw [if_pos h1]
      exact ⟨fun _ => Or.inl ⟨status, List.mem_cons_self _ _, h1⟩, fun _ => rfl⟩
    · rw [if_neg h1]
      by_cases h2 : memberIsLeader status = true
      · rw [if_pos h2]
        exact ⟨fun _ => Or.inr ⟨status, List.mem_cons_self _ _, hlead.mp h2⟩, fun _ => rfl⟩
      · rw [if_neg h2, ih]
        constructor
        · rintro (⟨m, hm, h⟩ | ⟨m, hm, h⟩)
          · exact Or.inl ⟨m, List.mem_cons_of_mem _ hm, h⟩
          · exact Or.inr ⟨m, List.mem_cons_of_mem _ hm, h⟩
        · rintro (⟨m, hm, h⟩ | ⟨m, hm, h⟩)
          · rcases List.mem_cons.mp hm with rfl | hm
            · exact absurd h h1
            · exact Or.inl ⟨m, hm, h⟩
          · rcases List.mem_cons.mp hm with rfl | hm
            · exact absurd (hlead.mpr h) h2
            · exact Or.inr ⟨m, hm, h⟩

/-- Characterisation of readiness of a non-nil instance set, one conjunct per check of
`IsInstanceSetReady`. -/
theorem isInstanceSetReady_some_iff (rsm : InstanceSet) :
    IsInstanceSetReady (some rsm) = true ↔
      rsm.Status.ReadyInitReplicas = rsm.Status.InitReplicas ∧
      (rsm.Status.ObservedGeneration = rsm.Generation ∧
        rsm.Status.CurrentGeneration = rsm.Generation) ∧
      ∃ replicas, rsm.Spec.Replicas = some replicas ∧
        (rsm.Status.Replicas = replicas ∧ rsm.Status.ReadyReplicas = replicas ∧
          rsm.Status.UpdatedReplicas = replicas) ∧
        (rsm.Spec.MinReadySeconds > 0 → rsm.Status.AvailableReplicas = replicas) ∧
        (rsm.Spec.Roles = none ∨ rsm.Spec.RoleProbe = none ∨
          ((rsm.Status.MembersStatus.length : Int) = replicas ∧
            ((∃ m ∈ rsm.Status.MembersStatus, m.ReadyWithoutPrimary = true) ∨
             (∃ m ∈ rsm.Status.MembersStatus, ∃ role,
                m.ReplicaRole = some role ∧ role.IsLeader = true)))) := by
  unfold IsInstanceSetReady
  simp only []
  by_cases h1 : rsm.Status.ReadyInitReplicas = rsm.Status.InitReplicas
  swap
  · simp [h1]
  by_cases h2 : rsm.Status.ObservedGeneration = rsm.Generation
  swap
  · simp [h1, h2]
  by_cases h3 : rsm.Status.CurrentGeneration = rsm.Generation
  swap
  · simp [h1, h2, h3]
  cases hrep : rsm.Spec.Replicas with
  | none => simp [h1, h2, h3]
  | some replicas =>
    simp only [h1, h2, h3, ne_eq, not_true_eq_false, or_self, if_false, true_and, and_self,
      Option.some.injEq, exists_eq_left']
    by_cases h4 : rsm.Status.Replicas = replicas
    swap
    · simp [h4]
    by_cases h5 : rsm.Status.ReadyReplicas = replicas
    swap
    · simp [h4, h5]
    by_cases h6 : rsm.Status.UpdatedReplicas = replicas
    swap
    · simp [h4, h5, h6]
    by_cases h7 : rsm.Spec.MinReadySeconds > 0 ∧ rsm.Status.AvailableReplicas ≠ replicas
    · have : ¬ (rsm.Spec.MinReadySeconds > 0 → rsm.Status.AvailableReplicas = replicas) :=
        fun h => h7.2 (h h7.1)
      simp [h4, h5, h6, h7, this]
    · have h7p : rsm.Spec.MinReadySeconds > 0 → rsm.Status.AvailableReplicas = replicas := by
        intro hpos
        by_contra hne
        exact h7 ⟨hpos, hne⟩
      by_cases h8 : rsm.Spec.Roles = none ∨ rsm.Spec.RoleProbe = none
      · have h8p : rsm.Spec.Roles = none ∨ rsm.Spec.RoleProbe = none ∨
            ((rsm.Status.MembersStatus.length : Int) = replicas ∧
            ((∃ m ∈ rsm.Status.MembersStatus, m.ReadyWithoutPrimary = true) ∨
             (∃ m ∈ rsm.Status.MembersStatus, ∃ role,
                m.ReplicaRole = some role ∧ role.IsLeader = true))) := by
          rcases h8 with h | h
          · exact Or.inl h
          · exact Or.inr (Or.inl h)
        simp only [h4, h5, h6, h7, h8, not_true_eq_false, or_self, if_false, if_true, true_iff]
        exact ⟨⟨trivial, trivial, trivial⟩, h7p, h8p⟩
      · have hr : rsm.Spec.Roles ≠ none := fun h => h8 (Or.inl h)
        have hp : rsm.Spec.RoleProbe ≠ none := fun h => h8 (Or.inr h)
        by_cases h9 : (rsm.Status.MembersStatus.length : Int) = replicas
        · simp only [h4, h5, h6, h7, h8, h9, not_true_eq_false, or_self, if_false,
            hasLeaderLoop_iff]
          constructor
          · intro h
            exact ⟨⟨trivial, trivial, trivial⟩, h7p, Or.inr (Or.inr ⟨trivial, h⟩)⟩
          · rintro ⟨-, -, h | h | ⟨-, h⟩⟩
            · exact absurd h hr
            · exact absurd h hp
            · exact h
        · simp only [h4, h5, h6, h7, h8, h9, not_true_eq_false, not_false_eq_true, or_self,
            if_false, if_true, Bool.false_eq_true, false_iff]
          rintro ⟨-, -, h | h | h⟩
          · exact hr h
          · exact hp h
          · exact h.1

/-- C1, as the code has it: `IsInstanceSetReady` is false for a nil instance set, and for a
non-nil one it is true exactly when the bootstrap counters agree, both generations equal
the object generation, the replica count is set and the replica, ready and updated
counters equal it, the available counter equals it when `MinReadySeconds > 0`, and
either `Spec.Roles` is nil (an empty role list that is not nil counts as declared
roles), or no role probe is configured, or the member list has as many entries as
declared replicas and holds a member that is ready without primary or a member with a
leader role. -/
theorem isInstanceSetReady_iff (rsm : InstanceSet) :
    IsInstanceSetReady none = false ∧
    (IsInstanceSetReady (some rsm) = true ↔
      rsm.Status.ReadyInitReplicas = rsm.Status.InitReplicas ∧
      (rsm.Status.ObservedGeneration = rsm.Generation ∧
        rsm.Status.CurrentGeneration = rsm.Generation) ∧
      ∃ replicas, rsm.Spec.Replicas = some replicas ∧
        (rsm.Status.Replicas = replicas ∧ rsm.Status.ReadyReplicas = replicas ∧
          rsm.Status.UpdatedReplicas = replicas) ∧
        (rsm.Spec.MinReadySeconds > 0 → rsm.Status.AvailableReplicas = replicas) ∧
        (rsm.Spec.Roles = none ∨ rsm.Spec.RoleProbe = none ∨
          ((rsm.Status.MembersStatus.length : Int) = replicas ∧
            ((∃ m ∈ rsm.Status.MembersStatus, m.ReadyWithoutPrimary = true) ∨
             (∃ m ∈ rsm.Status.MembersStatus, ∃ role,
                m.ReplicaRole = some role ∧ role.IsLeader = true))))) :=
  ⟨rfl, isInstanceSetReady_some_iff rsm⟩

/-- C2: an instance set whose observed generation differs from its generation is not
ready, whatever its counters, roles and member list. -/
theorem isInstanceSetReady_false_of_observedGeneration_ne (rsm : InstanceSet)
    (h : rsm.Status.ObservedGeneration ≠ rsm.Generation) :
    IsInstanceSetReady (some rsm) = false := by
  have := isInstanceSetReady_some_iff rsm
  cases hr : IsInstanceSetReady (some rsm) with
  | false => rfl
  | true => exact absurd (this.mp hr).2.1.1 h

/-- Witness for C2: three declared replicas, every counter equal to three, a leader among
three members, and an observed generation one behind. -/
theorem isInstanceSetReady_false_of_observedGeneration_ne_witness :
    (1 : Int) ≠ 2 ∧
    IsInstanceSetReady (some
      { Generation := 2
        Spec := { Replicas := some 3, MinReadySeconds := 0,
                  Roles := some [⟨"leader", true, "ReadWrite", true⟩],
                  RoleProbe := some {} }
        Status := { ObservedGeneration := 1, Replicas := 3, ReadyReplicas := 3,
                    UpdatedReplicas := 3, AvailableReplicas := 3, InitReplicas := 3,
                    ReadyInitReplicas := 3, CurrentGeneration := 2,
                    MembersStatus :=
                      [⟨"db-0", some ⟨"leader", true, "ReadWrite", true⟩, true, false⟩,
                       ⟨"db-1", none, true, false⟩, ⟨"db-2", none, true, false⟩] } })
      = false :=
  ⟨by decide, isInstanceSetReady_false_of_observedGeneration_ne _ (by decide)⟩

/-- C3, as the code has it: when `Spec.Roles` is nil or no role probe is configured, an
instance set that passes the bootstrap, generation, replica-counter and
min-ready-seconds checks is ready for every value of the member list. -/
theorem isInstanceSetReady_without_roles (rsm : InstanceSet) (replicas : Int)
    (hroles : rsm.Spec.Roles = none ∨ rsm.Spec.RoleProbe = none)
    (hinit : rsm.Status.ReadyInitReplicas = rsm.Status.InitReplicas)
    (hobserved : rsm.Status.ObservedGeneration = rsm.Generation)
    (hcurrent : rsm.Status.CurrentGeneration = rsm.Generation)
    (hspec : rsm.Spec.Replicas = some replicas)
    (hreplicas : rsm.Status.Replicas = replicas)
    (hready : rsm.Status.ReadyReplicas = replicas)
    (hupdated : rsm.Status.UpdatedReplicas = replicas)
    (havailable : rsm.Spec.MinReadySeconds > 0 → rsm.Status.AvailableReplicas = replicas)
    (members : List MemberStatus) :
    IsInstanceSetReady
      (some { rsm with Status := { rsm.Status with MembersStatus := members } }) = true := by
  refine (isInstanceSetReady_some_iff _).mpr ?_
  refine ⟨hinit, ⟨hobserved, hcurrent⟩, replicas, hspec, ⟨hreplicas, hready, hupdated⟩,
    havailable, ?_⟩
  rcases hroles with h | h
  · exact Or.inl h
  · exact Or.inr (Or.inl h)

/-- Witness for C3: three declared replicas, counters all three, nil roles, and a member
list of the wrong length without a leader. -/
theorem isInstanceSetReady_without_roles_witness :
    IsInstanceSetReady (some
      { Generation := 1
        Spec := { Replicas := some 3, MinReadySeconds := 0, Roles := none,
                  RoleProbe := some {} }
        Status := { ObservedGeneration := 1, Replicas := 3, ReadyReplicas := 3,
                    UpdatedReplicas := 3, AvailableReplicas := 0, InitReplicas := 3,
                    ReadyInitReplicas := 3, CurrentGeneration := 1,
                    MembersStatus := [⟨"db-0", none, false, false⟩] } }) = true :=
  isInstanceSetReady_without_roles
    { Generation := 1
      Spec := { Replicas := some 3, MinReadySeconds := 0, Roles := none,
                RoleProbe := some {} }
      Status := { ObservedGeneration := 1, Replicas := 3, ReadyReplicas := 3,
                  UpdatedReplicas := 3, AvailableReplicas := 0, InitReplicas := 3,
                  ReadyInitReplicas := 3, CurrentGeneration := 1,
                  MembersStatus := [] } }
    3 (Or.inl rfl) rfl rfl rfl rfl rfl rfl rfl (by decide) [⟨"db-0", none, false, false⟩]

/-! ## Theorems: ownership -/

theorem upsertOwnerRef_finalizers (ref : OwnerReference) (obj : Object) :
    (upsertOwnerRef ref obj).Finalizers = obj.Finalizers := by
  unfold upsertOwnerRef
  dsimp only
  split <;> rfl

theorem upsertOwnerRef_isPersistentVolumeClaim (ref : OwnerReference) (obj : Object) :
    (upsertOwnerRef ref obj).IsPersistentVolumeClaim = obj.IsPersistentVolumeClaim := by
  unfold upsertOwnerRef
  dsimp only
  split <;> rfl

theorem upsertOwnerRef_refs_nil (ref : OwnerReference) (fs : List String) (pvc : Bool) :
    (upsertOwnerRef ref ⟨[], fs, pvc⟩).OwnerReferences = [ref] := rfl

theorem upsertOwnerRef_refs_cons (ref r : OwnerReference) (rest : List OwnerReference)
    (fs : List String) (pvc : Bool) :
    (upsertOwnerRef ref ⟨r :: rest, fs, pvc⟩).OwnerReferences =
      if referSameObject r ref then ref :: rest
      else r :: (upsertOwnerRef ref ⟨rest, fs, pvc⟩).OwnerReferences := by
  unfold upsertOwnerRef
  simp only [indexOwnerRef]
  by_cases h : referSameObject r ref = true
  · simp [h]
  · simp only [h, if_false, Bool.false_eq_true]
    cases indexOwnerRef rest ref <;> simp

/-- Same-object comparison is transitive where it matters for conflicts: a reference
that matches `e` conflicts with everything `e` conflicts with. -/
theorem referSameObject_conflict_trans (e r x : OwnerReference)
    (her : referSameObject e r = true) (hex : referSameObject e x = false) :
    referSameObject r x = false := by
  unfold referSameObject at *
  cases he : ParseGroupVersion e.APIVersion with
  | none => simp [he] at her
  | some eGV =>
    cases hr : ParseGroupVersion r.APIVersion with
    | none => simp [he, hr] at her
    | some rGV =>
      cases hx : ParseGroupVersion x.APIVersion with
      | none => simp
      | some xGV =>
        simp only [he, hr, hx, Bool.and_eq_true, beq_iff_eq, Bool.and_eq_false_imp] at her hex ⊢
        obtain ⟨⟨h1, h2⟩, h3⟩ := her
        intro h4
        rw [← h3]
        exact hex ⟨h1.trans h4.1, h2.trans h4.2⟩

/-- After an upsert of a controller reference that matches the current controller, the
upserted reference is the controller found first. -/
theorem getControllerOf_upsert_of_same (ref existing : OwnerReference) (obj : Object)
    (hctrl : isController ref = true) (hex : GetControllerOf obj = some existing)
    (hsame : referSameObject existing ref = true) :
    GetControllerOf (upsertOwnerRef ref obj) = some ref := by
  obtain ⟨l, fs, pvc⟩ := obj
  unfold GetControllerOf at *
  simp only at hex
  induction l with
  | nil => simp at hex
  | cons r rest ih =>
    rw [upsertOwnerRef_refs_cons]
    by_cases h : referSameObject r ref = true
    · simp [h, hctrl]
    · simp only [h, if_false, Bool.false_eq_true]
      by_cases hr : isController r = true
      · rw [List.find?_cons_of_pos _ hr] at hex
        cases hex
        exact absurd hsame h
      · rw [List.find?_cons_of_neg _ hr] at hex
        rw [List.find?_cons_of_neg _ hr]
        exact ih hex

/-- After an upsert of a controller reference into an object without controller, the
upserted reference is the only controller. -/
theorem filter_upsert_of_no_controller (ref : OwnerReference) (obj : Object)
    (hctrl : isController ref = true) (hnone : GetControllerOf obj = none) :
    (upsertOwnerRef ref obj).OwnerReferences.filter isController = [ref] := by
  obtain ⟨l, fs, pvc⟩ := obj
  unfold GetControllerOf at hnone
  simp only at hnone
  induction l with
  | nil => simp [upsertOwnerRef_refs_nil, hctrl]
  | cons r rest ih =>
    have hr : ¬ isController r = true := by
      intro hr
      rw [List.find?_cons_of_pos _ hr] at hnone
      cases hnone
    rw [List.find?_cons_of_neg _ hr] at hnone
    have hrest : rest.filter isController = [] := by
      rw [List.filter_eq_nil_iff]
      intro a ha hca
      have := List.find?_eq_none.mp hnone a ha
      exact this hca
    rw [upsertOwnerRef_refs_cons]
    by_cases h : referSameObject r ref = true
    · simp [h, hctrl, hrest]
    · simp only [h, if_false, Bool.false_eq_true]
      rw [List.filter_cons_of_neg hr]
      exact ih hnone

/-- The loop of `CopyOwnership` only looks at the controller references of the owner. -/
theorem copyControllerRefs_filter (refs : List OwnerReference) (obj : Object) :
    copyControllerRefs refs obj = copyControllerRefs (refs.filter isController) obj := by
  induction refs generalizing obj with
  | nil => rfl
  | cons r rest ih =>
    by_cases hr : isController r = true
    · rw [List.filter_cons_of_pos hr]
      simp only [copyControllerRefs, hr, Bool.not_true, Bool.false_eq_true, if_false]
      cases GetControllerOf obj with
      | none => exact ih _
      | some existing =>
        simp only []
        split
        · rfl
        · exact ih _
    · rw [List.filter_cons_of_neg hr]
      simp only [copyControllerRefs, hr, Bool.not_false, if_true]
      simpa using ih obj

/-- The loop of `CopyOwnership` leaves finalizers and dynamic type alone. -/
theorem copyControllerRefs_frame (refs : List OwnerReference) (obj : Object) :
    (copyControllerRefs refs obj).1.Finalizers = obj.Finalizers ∧
    (copyControllerRefs refs obj).1.IsPersistentVolumeClaim = obj.IsPersistentVolumeClaim := by
  induction refs generalizing obj with
  | nil => exact ⟨rfl, rfl⟩
  | cons r rest ih =>
    unfold copyControllerRefs
    have hup := ih (upsertOwnerRef r obj)
    rw [upsertOwnerRef_finalizers, upsertOwnerRef_isPersistentVolumeClaim] at hup
    split
    · exact ih obj
    · split
      · split
        · exact ⟨rfl, rfl⟩
        · exact hup
      · exact hup
/-- An early return of the loop is the result of `CopyOwnership`. -/
theorem copyOwnership_of_loop_error (owner obj o : Object) (finalizer : String)
    (e : OwnershipError) (h : copyControllerRefs owner.OwnerReferences obj = (o, some e)) :
    CopyOwnership owner obj finalizer = (o, some e) := by
  unfold CopyOwnership
  rw [h]

/-- When the loop ends without error, `CopyOwnership` returns no error either, and adds
the finalizer unless it is present or the object is a persistent volume claim. -/
theorem copyOwnership_of_loop_ok (owner obj o : Object) (finalizer : String)
    (h : copyControllerRefs owner.OwnerReferences obj = (o, none)) :
    CopyOwnership owner obj finalizer =
      (if ContainsFinalizer o finalizer = true ∨ o.IsPersistentVolumeClaim = true then o
       else { o with Finalizers := o.Finalizers ++ [finalizer] }, none) := by
  unfold CopyOwnership
  rw [h]
  by_cases hc : ContainsFinalizer o finalizer = true
  · simp [hc]
  · by_cases hp : o.IsPersistentVolumeClaim = true
    · simp [hc, hp]
    · have hany : o.Finalizers.any (fun e => e == finalizer) = false := by
        exact Bool.eq_false_iff.mpr hc
      simp only [hc, hp, Bool.not_eq_true, Bool.not_false, if_true, AddFinalizer, hany,
        Bool.false_eq_true, if_false, or_self]

/-- The loop fails with the conflict error as soon as the owner carries a controller
reference that does not match the current controller of the object. -/
theorem copyControllerRefs_conflict (refs : List OwnerReference) (obj : Object)
    (existing ref : OwnerReference) (hex : GetControllerOf obj = some existing)
    (hmem : ref ∈ refs) (hctrl : isController ref = true)
    (hdiff : referSameObject existing ref = false) :
    ∃ e, (copyControllerRefs refs obj).2 = some (.AlreadyOwnedError e) := by
  induction refs generalizing obj existing with
  | nil => simp at hmem
  | cons r rest ih =>
    unfold copyControllerRefs
    by_cases hr : isController r = true
    · simp only [hr, Bool.not_true, Bool.false_eq_true, if_false, hex]
      by_cases hsame : referSameObject existing r = true
      · simp only [hsame, Bool.not_true, Bool.false_eq_true, if_false]
        have hne : ref ≠ r := by
          rintro rfl
          rw [hsame] at hdiff
          cases hdiff
        have hmem' : ref ∈ rest := by
          rcases List.mem_cons.mp hmem with h | h
          · exact absurd h hne
          · exact h
        exact ih (upsertOwnerRef r obj) r
          (getControllerOf_upsert_of_same r existing obj hr hex hsame) hmem'
          (referSameObject_conflict_trans existing r ref hsame hdiff)
      · simp only [hsame, Bool.not_false, if_true]
        exact ⟨existing, rfl⟩
    · have hne : ref ≠ r := by
        rintro rfl
        exact hr hctrl
      have hmem' : ref ∈ rest := by
        rcases List.mem_cons.mp hmem with h | h
        · exact absurd h hne
        · exact h
      simp only [hr, Bool.not_false, if_true]
      exact ih obj existing hex hmem' hdiff

/-- The only error of the loop is the conflict error. -/
theorem copyControllerRefs_error (refs : List OwnerReference) (obj : Object)
    (e : OwnershipError) (h : (copyControllerRefs refs obj).2 = some e) :
    ∃ existing, e = .AlreadyOwnedError existing := by
  induction refs generalizing obj with
  | nil => simp [copyControllerRefs] at h
  | cons r rest ih =>
    unfold copyControllerRefs at h
    split at h
    · exact ih obj h
    · split at h
      · split at h
        · rename_i existing _ _
          exact ⟨existing, (Option.some.inj h).symm⟩
        · exact ih _ h
      · exact ih _ h

/-- When the first controller reference of the owner conflicts, the loop returns at once
and the object is as it was. -/
theorem copyControllerRefs_first_conflict (refs : List OwnerReference) (obj : Object)
    (existing ref : OwnerReference) (hex : GetControllerOf obj = some existing)
    (hfirst : refs.find? isController = some ref)
    (hdiff : referSameObject existing ref = false) :
    copyControllerRefs refs obj = (obj, some (.AlreadyOwnedError existing)) := by
  induction refs with
  | nil => simp at hfirst
  | cons r rest ih =>
    unfold copyControllerRefs
    by_cases hr : isController r = true
    · rw [List.find?_cons_of_pos _ hr] at hfirst
      cases hfirst
      simp [hr, hex, hdiff]
    · rw [List.find?_cons_of_neg _ hr] at hfirst
      simp only [hr, Bool.not_false, if_true]
      exact ih hfirst

/-- C4, as the code has it: when the target has a controller reference and the owner
carries a controller reference that does not refer to the same object, `CopyOwnership`
fails with the ownership-conflict error; and when that reference is the first controller
reference of the owner, the target is returned exactly as it was before the call. -/
theorem copyOwnership_conflict (owner obj : Object) (finalizer : String)
    (existing ref : OwnerReference) (hex : GetControllerOf obj = some existing)
    (hmem : ref ∈ owner.OwnerReferences) (hctrl : isController ref = true)
    (hdiff : referSameObject existing ref = false) :
    (∃ e, (CopyOwnership owner obj finalizer).2 = some (.AlreadyOwnedError e)) ∧
    (owner.OwnerReferences.find? isController = some ref →
      CopyOwnership owner obj finalizer = (obj, some (.AlreadyOwnedError existing))) := by
  constructor
  · obtain ⟨e, he⟩ := copyControllerRefs_conflict owner.OwnerReferences obj existing ref
      hex hmem hctrl hdiff
    refine ⟨e, ?_⟩
    rw [copyOwnership_of_loop_error owner obj (copyControllerRefs owner.OwnerReferences obj).1
      finalizer (.AlreadyOwnedError e) (by rw [← he])]
  · intro hfirst
    exact copyOwnership_of_loop_error owner obj obj finalizer _
      (copyControllerRefs_first_conflict owner.OwnerReferences obj existing ref hex hfirst hdiff)

/-- C5: an owner with exactly one controller reference adopts a target that is not a
persistent volume claim and has no controller: no error, the target then has exactly one
controller reference, the one of the owner, and carries the finalizer. -/
theorem copyOwnership_adopts (owner obj : Object) (finalizer : String) (ref : OwnerReference)
    (hone : owner.OwnerReferences.filter isController = [ref])
    (hpvc : obj.IsPersistentVolumeClaim = false)
    (hnone : GetControllerOf obj = none) :
    (CopyOwnership owner obj finalizer).2 = none ∧
    (CopyOwnership owner obj finalizer).1.OwnerReferences.filter isController = [ref] ∧
    finalizer ∈ (CopyOwnership owner obj finalizer).1.Finalizers := by
  have hctrl : isController ref = true := by
    have : ref ∈ owner.OwnerReferences.filter isController := by rw [hone]; simp
    exact (List.mem_filter.mp this).2
  have hloop : copyControllerRefs owner.OwnerReferences obj = (upsertOwnerRef ref obj, none) := by
    rw [copyControllerRefs_filter, hone]
    simp [copyControllerRefs, hctrl, hnone]
  rw [copyOwnership_of_loop_ok owner obj _ finalizer hloop]
  refine ⟨rfl, ?_, ?_⟩
  · have := filter_upsert_of_no_controller ref obj hctrl hnone
    dsimp only
    split <;> exact this
  · dsimp only
    split
    · rename_i h
      rcases h with h | h
      · unfold ContainsFinalizer at h
        simpa using h
      · rw [upsertOwnerRef_isPersistentVolumeClaim, hpvc] at h
        cases h
    · simp

/-- C6: for a persistent volume claim `CopyOwnership` returns the finalizer list it was
given, so a finalizer absent before the call is absent after it, and the returned error
is never the finalizer error. -/
theorem copyOwnership_pvc_keeps_finalizers (owner obj : Object) (finalizer : String)
    (hpvc : obj.IsPersistentVolumeClaim = true) :
    (CopyOwnership owner obj finalizer).1.Finalizers = obj.Finalizers ∧
    (finalizer ∉ obj.Finalizers → finalizer ∉ (CopyOwnership owner obj finalizer).1.Finalizers) ∧
    (CopyOwnership owner obj finalizer).2 ≠ some .ErrFailedToAddFinalizer := by
  have hframe := copyControllerRefs_frame owner.OwnerReferences obj
  have hmain : (CopyOwnership owner obj finalizer).1.Finalizers = obj.Finalizers ∧
      (CopyOwnership owner obj finalizer).2 ≠ some .ErrFailedToAddFinalizer := by
    cases hl : copyControllerRefs owner.OwnerReferences obj with
    | mk o err =>
      rw [hl] at hframe
      cases err with
      | some e =>
        rw [copyOwnership_of_loop_error owner obj o finalizer e hl]
        refine ⟨hframe.1, ?_⟩
        intro h
        have h2 : e = .ErrFailedToAddFinalizer := Option.some.inj h
        subst h2
        have h3 := copyControllerRefs_error owner.OwnerReferences obj .ErrFailedToAddFinalizer
          (by rw [hl])
        obtain ⟨x, hx⟩ := h3
        cases hx
      | none =>
        rw [copyOwnership_of_loop_ok owner obj o finalizer hl]
        have hp : o.IsPersistentVolumeClaim = true := hframe.2.trans hpvc
        simp only [hp, or_true, if_true]
        exact ⟨hframe.1, by simp⟩
  exact ⟨hmain.1, fun h => by rw [hmain.1]; exact h, hmain.2⟩
/-- Witness for C4: the only controller reference of the owner is to `cache`, the target
is controlled by `db`; the call fails and returns the target untouched. -/
theorem copyOwnership_conflict_witness :
    GetControllerOf ⟨[refDbV1], [], false⟩ = some refDbV1 ∧
    refCache ∈ (⟨[refDbPlain, refCache], [], false⟩ : Object).OwnerReferences ∧
    isController refCache = true ∧ referSameObject refDbV1 refCache = false ∧
    CopyOwnership ⟨[refDbPlain, refCache], [], false⟩ ⟨[refDbV1], [], false⟩ "finalizer" =
      (⟨[refDbV1], [], false⟩, some (.AlreadyOwnedError refDbV1)) :=
  ⟨by decide, by decide, by decide, by decide,
    (copyOwnership_conflict ⟨[refDbPlain, refCache], [], false⟩ ⟨[refDbV1], [], false⟩
      "finalizer" refDbV1 refCache (by decide) (by decide) (by decide) (by decide)).2
      (by decide)⟩

/-- Counterexample to C4 as stated: the owner carries a controller reference to `db`
followed by one to `cache`, the target is controlled by `db` at an older API version. The
reference to `cache` does not refer to the same object as the target's controller and the
call fails with the conflict error, but the first reference has been written into the
target by then: its owner references are no longer those it had before the call. -/
theorem copyOwnership_conflict_changes_references :
    GetControllerOf ⟨[refDbV1beta1], [], false⟩ = some refDbV1beta1 ∧
    refCache ∈ (⟨[refDbV1, refCache], [], false⟩ : Object).OwnerReferences ∧
    isController refCache = true ∧ referSameObject refDbV1beta1 refCache = false ∧
    CopyOwnership ⟨[refDbV1, refCache], [], false⟩ ⟨[refDbV1beta1], [], false⟩ "finalizer" =
      (⟨[refDbV1], [], false⟩, some (.AlreadyOwnedError refDbV1)) ∧
    (CopyOwnership ⟨[refDbV1, refCache], [], false⟩ ⟨[refDbV1beta1], [], false⟩
      "finalizer").1.OwnerReferences ≠ [refDbV1beta1] := by
  decide

/-- Witness for C5: a target without owner references adopts the one controller
reference of the owner and the finalizer. -/
theorem copyOwnership_adopts_witness :
    (CopyOwnership ⟨[refDbPlain, refCache], [], false⟩ ⟨[refDbPlain], [], false⟩
      "finalizer").2 = none ∧
    (CopyOwnership ⟨[refDbPlain, refCache], [], false⟩ ⟨[refDbPlain], [], false⟩
      "finalizer").1.OwnerReferences.filter isController = [refCache] ∧
    "finalizer" ∈ (CopyOwnership ⟨[refDbPlain, refCache], [], false⟩ ⟨[refDbPlain], [], false⟩
      "finalizer").1.Finalizers :=
  copyOwnership_adopts ⟨[refDbPlain, refCache], [], false⟩ ⟨[refDbPlain], [], false⟩
    "finalizer" refCache (by decide) (by decide) (by decide)

/-- Witness for C6: a persistent volume claim without finalizers has none after the
call. -/
theorem copyOwnership_pvc_keeps_finalizers_witness :
    (CopyOwnership ⟨[refDbV1], [], false⟩ ⟨[], [], true⟩ "finalizer").1.Finalizers = [] ∧
    ("finalizer" ∉ ([] : List String) →
      "finalizer" ∉ (CopyOwnership ⟨[refDbV1], [], false⟩ ⟨[], [], true⟩
        "finalizer").1.Finalizers) ∧
    (CopyOwnership ⟨[refDbV1], [], false⟩ ⟨[], [], true⟩ "finalizer").2 ≠
      some .ErrFailedToAddFinalizer :=
  copyOwnership_pvc_keeps_finalizers ⟨[refDbV1], [], false⟩ ⟨[], [], true⟩ "finalizer" rfl

/-- C7, the code at the failing input: the target holds a plain reference to `db` followed
by its controller reference to `db` (one controller). The owner's controller reference to
`db` matches the controller, so there is no conflict, and the upsert overwrites the first
matching entry, the plain one: the call returns no error and the target ends with two
references whose `Controller` flag is true. -/
theorem copyOwnership_leaves_two_controllers :
    ((⟨[refDbPlain, refDbV1beta1], [], false⟩ : Object).OwnerReferences.filter
      isController).length = 1 ∧
    CopyOwnership ⟨[refDbV1], [], false⟩ ⟨[refDbPlain, refDbV1beta1], [], false⟩ "finalizer" =
      (⟨[refDbV1, refDbV1beta1], ["finalizer"], false⟩, none) ∧
    ((CopyOwnership ⟨[refDbV1], [], false⟩ ⟨[refDbPlain, refDbV1beta1], [], false⟩
      "finalizer").1.OwnerReferences.filter isController).length = 2 := by
  decide
/-- Same-object comparison is symmetric. -/
theorem referSameObject_symm (a b : OwnerReference) (h : referSameObject a b = true) :
    referSameObject b a = true := by
  unfold referSameObject at *
  cases ha : ParseGroupVersion a.APIVersion with
  | none => simp [ha] at h
  | some aGV =>
    cases hb : ParseGroupVersion b.APIVersion with
    | none => simp [ha, hb] at h
    | some bGV =>
      simp only [ha, hb, Bool.and_eq_true, beq_iff_eq] at h ⊢
      exact ⟨⟨h.1.1.symm, h.1.2.symm⟩, h.2.symm⟩

/-- Same-object comparison is transitive. -/
theorem referSameObject_trans (a b c : OwnerReference) (hab : referSameObject a b = true)
    (hbc : referSameObject b c = true) : referSameObject a c = true := by
  cases hac : referSameObject a c with
  | true => rfl
  | false =>
    have := referSameObject_conflict_trans a b c hab hac
    rw [hbc] at this
    cases this

/-- An upsert only adds the upserted reference. -/
theorem mem_upsertOwnerRef (ref x : OwnerReference) (l : List OwnerReference)
    (fs : List String) (pvc : Bool)
    (hx : x ∈ (upsertOwnerRef ref ⟨l, fs, pvc⟩).OwnerReferences) : x ∈ l ∨ x = ref := by
  induction l with
  | nil =>
    rw [upsertOwnerRef_refs_nil] at hx
    exact Or.inr (List.mem_singleton.mp hx)
  | cons r rest ih =>
    rw [upsertOwnerRef_refs_cons] at hx
    by_cases h : referSameObject r ref = true
    · simp only [h, if_true] at hx
      rcases List.mem_cons.mp hx with h1 | h1
      · exact Or.inr h1
      · exact Or.inl (List.mem_cons_of_mem _ h1)
    · simp only [h, if_false, Bool.false_eq_true] at hx
      rcases List.mem_cons.mp hx with h1 | h1
      · exact Or.inl (h1 ▸ List.mem_cons_self _ _)
      · rcases ih h1 with h2 | h2
        · exact Or.inl (List.mem_cons_of_mem _ h2)
        · exact Or.inr h2

/-- An upsert keeps the references of an object pairwise distinct as objects. -/
theorem pairwise_upsertOwnerRef (ref : OwnerReference) (l : List OwnerReference)
    (fs : List String) (pvc : Bool)
    (hl : l.Pairwise (fun a b => referSameObject a b = false)) :
    (upsertOwnerRef ref ⟨l, fs, pvc⟩).OwnerReferences.Pairwise
      (fun a b => referSameObject a b = false) := by
  induction l with
  | nil =>
    rw [upsertOwnerRef_refs_nil]
    exact List.pairwise_singleton _ _
  | cons r rest ih =>
    rw [upsertOwnerRef_refs_cons]
    rw [List.pairwise_cons] at hl
    by_cases h : referSameObject r ref = true
    · simp only [h, if_true]
      rw [List.pairwise_cons]
      refine ⟨fun x hx => ?_, hl.2⟩
      cases hrx : referSameObject ref x with
      | false => rfl
      | true =>
        have := referSameObject_trans r ref x h hrx
        rw [hl.1 x hx] at this
        cases this
    · simp only [h, if_false, Bool.false_eq_true]
      rw [List.pairwise_cons]
      refine ⟨fun x hx => ?_, ih hl.2⟩
      rcases mem_upsertOwnerRef ref x rest fs pvc hx with h1 | h1
      · exact hl.1 x h1
      · rw [h1]
        exact Bool.eq_false_iff.mpr h

/-- An upsert of a reference that matches the current controller keeps the number of
controller references at most one, when the references are pairwise distinct as objects. -/
theorem controllers_upsert_of_same (ref existing : OwnerReference) (l : List OwnerReference)
    (fs : List String) (pvc : Bool)
    (hl : l.Pairwise (fun a b => referSameObject a b = false))
    (hone : (l.filter isController).length ≤ 1)
    (hex : l.find? isController = some existing)
    (hsame : referSameObject existing ref = true) :
    ((upsertOwnerRef ref ⟨l, fs, pvc⟩).OwnerReferences.filter isController).length ≤ 1 := by
  induction l with
  | nil => simp at hex
  | cons r rest ih =>
    rw [upsertOwnerRef_refs_cons]
    rw [List.pairwise_cons] at hl
    by_cases hr : isController r = true
    · rw [List.find?_cons_of_pos _ hr] at hex
      cases hex
      rw [List.filter_cons_of_pos hr] at hone
      have hrest : (rest.filter isController).length = 0 := by
        simp only [List.length_cons] at hone
        omega
      simp only [hsame, if_true]
      by_cases hc : isController ref = true
      · rw [List.filter_cons_of_pos hc, List.length_cons, hrest]
      · rw [List.filter_cons_of_neg hc, hrest]
        exact Nat.zero_le _
    · rw [List.find?_cons_of_neg _ hr] at hex
      rw [List.filter_cons_of_neg hr] at hone
      have hmem : existing ∈ rest := List.mem_of_find?_eq_some hex
      have hne : ¬ referSameObject r ref = true := by
        intro h
        have h2 := referSameObject_trans r ref existing h
          (referSameObject_symm existing ref hsame)
        rw [hl.1 existing hmem] at h2
        cases h2
      simp only [hne, if_false, Bool.false_eq_true]
      rw [List.filter_cons_of_neg hr]
      exact ih hl.2 hone hex

/-- The loop of `CopyOwnership` keeps "at most one controller reference" for an object
whose references are pairwise distinct as objects. -/
theorem copyControllerRefs_single_controller (refs : List OwnerReference) (obj : Object)
    (hl : obj.OwnerReferences.Pairwise (fun a b => referSameObject a b = false))
    (hone : (obj.OwnerReferences.filter isController).length ≤ 1) :
    ((copyControllerRefs refs obj).1.OwnerReferences.filter isController).length ≤ 1 := by
  induction refs generalizing obj with
  | nil => exact hone
  | cons r rest ih =>
    obtain ⟨l, fs, pvc⟩ := obj
    have hpw := pairwise_upsertOwnerRef r l fs pvc hl
    unfold copyControllerRefs
    by_cases hr : isController r = true
    · simp only [hr, Bool.not_true, Bool.false_eq_true, if_false]
      cases hex : GetControllerOf ⟨l, fs, pvc⟩ with
      | none =>
        simp only []
        refine ih _ hpw ?_
        rw [filter_upsert_of_no_controller r _ hr hex]
        exact Nat.le_refl _
      | some existing =>
        simp only []
        by_cases hsame : referSameObject existing r = true
        · simp only [hsame, Bool.not_true, Bool.false_eq_true, if_false]
          exact ih _ hpw (controllers_upsert_of_same r existing l fs pvc hl hone hex hsame)
        · simp only [hsame, Bool.not_false, if_true]
          exact hone
    · simp only [hr, Bool.not_false, if_true]
      exact ih _ hl hone

/-- The finalizer step of `CopyOwnership` does not touch the owner references. -/
theorem copyOwnership_references (owner obj : Object) (finalizer : String) :
    (CopyOwnership owner obj finalizer).1.OwnerReferences =
      (copyControllerRefs owner.OwnerReferences obj).1.OwnerReferences := by
  cases hl : copyControllerRefs owner.OwnerReferences obj with
  | mk o err =>
    cases err with
    | some e => rw [copyOwnership_of_loop_error owner obj o finalizer e hl]
    | none =>
      rw [copyOwnership_of_loop_ok owner obj o finalizer hl]
      dsimp only
      split <;> rfl

/-- The invariant "at most one controller reference" is kept by `CopyOwnership` for every
target whose owner references are pairwise distinct as objects (no two of them have the
same API group, kind and name). -/
theorem copyOwnership_single_controller_of_distinct (owner obj : Object) (finalizer : String)
    (hl : obj.OwnerReferences.Pairwise (fun a b => referSameObject a b = false))
    (hone : (obj.OwnerReferences.filter isController).length ≤ 1) :
    ((CopyOwnership owner obj finalizer).1.OwnerReferences.filter isController).length ≤ 1 := by
  rw [copyOwnership_references]
  exact copyControllerRefs_single_controller owner.OwnerReferences obj hl hone

/-! ## Theorems: ranking -/

/-- The inner loop inserts the new element and moves nothing else. -/
theorem sinkLeft_perm {T : Type} (less : T → T → Bool) (x : T) (l : List T) :
    (sinkLeft less x l).Perm (x :: l) := by
  induction l with
  | nil => exact List.Perm.refl _
  | cons y ys ih =>
    unfold sinkLeft
    split
    · exact (List.Perm.cons y ih).trans (List.Perm.swap x y ys)
    · exact List.Perm.refl _

/-- The insertion loop yields a permutation of the elements inserted and those present. -/
theorem foldl_sinkLeft_perm {T : Type} (less : T → T → Bool) (items acc : List T) :
    (items.foldl (fun sortedRev x => sinkLeft less x sortedRev) acc).Perm (items ++ acc) := by
  induction items generalizing acc with
  | nil => exact List.Perm.refl _
  | cons x xs ih =>
    rw [List.foldl_cons]
    refine (ih (sinkLeft less x acc)).trans ?_
    refine (List.Perm.append_left xs (sinkLeft_perm less x acc)).trans ?_
    exact (List.perm_middle).trans (List.Perm.refl _)

/-- The model of `sort.SliceStable` returns a permutation of its input. -/
theorem sliceStable_perm {T : Type} (less : T → T → Bool) (items : List T) :
    (SliceStable less items).Perm items := by
  unfold SliceStable
  refine (List.reverse_perm _).trans ?_
  simpa using foldl_sinkLeft_perm less items []

/-- The inner loop keeps the sorted part sorted (it is held last element first, so keys
do not increase along the list). -/
theorem sinkLeft_sorted {T κ : Type} [LinearOrder κ] (less : T → T → Bool) (key : T → κ)
    (hless : ∀ a b, less a b = true ↔ key a < key b) (x : T) (l : List T)
    (hl : l.Pairwise (fun u v => key v ≤ key u)) :
    (sinkLeft less x l).Pairwise (fun u v => key v ≤ key u) := by
  induction l with
  | nil => exact List.pairwise_singleton _ _
  | cons y ys ih =>
    rw [List.pairwise_cons] at hl
    unfold sinkLeft
    by_cases hxy : less x y = true
    · rw [if_pos hxy, List.pairwise_cons]
      refine ⟨fun v hv => ?_, ih hl.2⟩
      rcases List.mem_cons.mp ((sinkLeft_perm less x ys).mem_iff.mp hv) with h | h
      · rw [h]
        exact le_of_lt ((hless x y).mp hxy)
      · exact hl.1 v h
    · rw [if_neg hxy, List.pairwise_cons]
      have hyx : key y ≤ key x := not_lt.mp (fun h => hxy ((hless x y).mpr h))
      refine ⟨fun v hv => ?_, List.pairwise_cons.mpr hl⟩
      rcases List.mem_cons.mp hv with h | h
      · rw [h]
        exact hyx
      · exact le_trans (hl.1 v h) hyx

/-- The insertion loop keeps the sorted part sorted. -/
theorem foldl_sinkLeft_sorted {T κ : Type} [LinearOrder κ] (less : T → T → Bool)
    (key : T → κ) (hless : ∀ a b, less a b = true ↔ key a < key b) (items acc : List T)
    (hacc : acc.Pairwise (fun u v => key v ≤ key u)) :
    (items.foldl (fun sortedRev x => sinkLeft less x sortedRev) acc).Pairwise
      (fun u v => key v ≤ key u) := by
  induction items generalizing acc with
  | nil => exact hacc
  | cons x xs ih =>
    rw [List.foldl_cons]
    exact ih _ (sinkLeft_sorted less key hless x acc hacc)

/-- The model of `sort.SliceStable` returns a list sorted by the key that `less`
compares. -/
theorem sliceStable_sorted {T κ : Type} [LinearOrder κ] (less : T → T → Bool) (key : T → κ)
    (hless : ∀ a b, less a b = true ↔ key a < key b) (items : List T) :
    (SliceStable less items).Pairwise (fun a b => key a ≤ key b) := by
  unfold SliceStable
  rw [List.pairwise_reverse]
  exact foldl_sinkLeft_sorted less key hless items [] List.Pairwise.nil

/-- The inner loop puts the new element in front of the elements of its own key: it only
passes elements of a strictly greater key. -/
theorem sinkLeft_filter {T κ : Type} [LinearOrder κ] (less : T → T → Bool) (key : T → κ)
    (hless : ∀ a b, less a b = true ↔ key a < key b) (k : κ) (x : T) (l : List T) :
    (sinkLeft less x l).filter (fun a => decide (key a = k)) =
      (x :: l).filter (fun a => decide (key a = k)) := by
  induction l with
  | nil => rfl
  | cons y ys ih =>
    unfold sinkLeft
    by_cases hxy : less x y = true
    · rw [if_pos hxy]
      have hlt : key x < key y := (hless x y).mp hxy
      by_cases hx : key x = k
      · have hy : ¬ key y = k := fun h => absurd (hx.trans h.symm) (ne_of_lt hlt)
        simp only [List.filter_cons, hy, decide_False, Bool.false_eq_true, if_false, ih, hx,
          decide_True, if_true]
      · by_cases hy : key y = k
        · simp only [List.filter_cons, hy, decide_True, if_true, ih, hx, decide_False,
            Bool.false_eq_true, if_false]
        · simp only [List.filter_cons, hy, decide_False, Bool.false_eq_true, if_false, ih, hx]
    · rw [if_neg hxy]

/-- The insertion loop stacks the elements of each key in front of those already there. -/
theorem foldl_sinkLeft_filter {T κ : Type} [LinearOrder κ] (less : T → T → Bool)
    (key : T → κ) (hless : ∀ a b, less a b = true ↔ key a < key b) (k : κ)
    (items acc : List T) :
    (items.foldl (fun sortedRev x => sinkLeft less x sortedRev) acc).filter
        (fun a => decide (key a = k)) =
      (items.filter (fun a => decide (key a = k))).reverse ++
        acc.filter (fun a => decide (key a = k)) := by
  induction items generalizing acc with
  | nil => simp
  | cons x xs ih =>
    rw [List.foldl_cons, ih, sinkLeft_filter less key hless]
    by_cases hx : key x = k
    · simp [List.filter_cons, hx]
    · simp [List.filter_cons, hx]

/-- The model of `sort.SliceStable` is stable: the elements of each key come out in the
order they came in. -/
theorem sliceStable_stable {T κ : Type} [LinearOrder κ] (less : T → T → Bool) (key : T → κ)
    (hless : ∀ a b, less a b = true ↔ key a < key b) (k : κ) (items : List T) :
    (SliceStable less items).filter (fun a => decide (key a = k)) =
      items.filter (fun a => decide (key a = k)) := by
  unfold SliceStable
  rw [List.filter_reverse, foldl_sinkLeft_filter less key hless]
  simp

/-- Two lists sorted by a key that agree, key by key, on the sequence of their elements
of that key are equal. -/
theorem eq_of_sorted_of_filter_eq {T κ : Type} [LinearOrder κ] (key : T → κ) (l₁ l₂ : List T)
    (h₁ : l₁.Pairwise (fun a b => key a ≤ key b))
    (h₂ : l₂.Pairwise (fun a b => key a ≤ key b))
    (hf : ∀ k, l₁.filter (fun a => decide (key a = k)) = l₂.filter (fun a => decide (key a = k))) :
    l₁ = l₂ := by
  induction l₁ generalizing l₂ with
  | nil =>
    cases l₂ with
    | nil => rfl
    | cons y ys =>
      have := hf (key y)
      simp [List.filter_cons] at this
  | cons x xs ih =>
    cases l₂ with
    | nil =>
      have := hf (key x)
      simp [List.filter_cons] at this
    | cons y ys =>
      rw [List.pairwise_cons] at h₁ h₂
      have hxy : key x = key y := by
        apply le_antisymm
        · have hy : y ∈ (x :: xs).filter (fun a => decide (key a = key y)) := by
            rw [hf (key y)]
            simp [List.filter_cons]
          have hmem := (List.mem_filter.mp hy)
          rcases List.mem_cons.mp hmem.1 with h | h
          · rw [h]
          · exact h₁.1 y h
        · have hx : x ∈ (y :: ys).filter (fun a => decide (key a = key x)) := by
            rw [← hf (key x)]
            simp [List.filter_cons]
          have hmem := (List.mem_filter.mp hx)
          rcases List.mem_cons.mp hmem.1 with h | h
          · rw [h]
          · exact h₂.1 x h
      have hhead := hf (key x)
      simp only [List.filter_cons, decide_True, if_true, hxy.symm] at hhead
      have hx_eq : x = y := (List.cons.inj hhead).1
      subst hx_eq
      congr 1
      refine ih ys h₁.2 h₂.2 (fun k => ?_)
      have hk := hf k
      by_cases hkx : key x = k
      · simp only [List.filter_cons, hkx, decide_True, if_true] at hk
        exact (List.cons.inj hk).2
      · simp only [List.filter_cons, hkx, decide_False, Bool.false_eq_true, if_false] at hk
        exact hk

/-- The result of a stable sort is determined: every list that is sorted by the key and
keeps, for each key, the input order of the elements of that key is the list computed by
the model of `sort.SliceStable`. -/
theorem sliceStable_unique {T κ : Type} [LinearOrder κ] (less : T → T → Bool) (key : T → κ)
    (hless : ∀ a b, less a b = true ↔ key a < key b) (items out : List T)
    (hsorted : out.Pairwise (fun a b => key a ≤ key b))
    (hstable : ∀ k, out.filter (fun a => decide (key a = k)) =
      items.filter (fun a => decide (key a = k))) :
    out = SliceStable less items :=
  eq_of_sorted_of_filter_eq key out (SliceStable less items) hsorted
    (sliceStable_sorted less key hless items)
    (fun k => (hstable k).trans (sliceStable_stable less key hless k items).symm)

/-- Without `reverse`, the closure of `sortMembers` compares the sort keys. -/
theorem sortMembersLess_forward {T : Type} (rolePriorityMap : PriorityMap)
    (getRoleFunc : T → String) (getOrdinalFunc : T → Int) (a b : T) :
    sortMembersLess rolePriorityMap getRoleFunc getOrdinalFunc false a b = true ↔
      memberKey rolePriorityMap getRoleFunc getOrdinalFunc a <
        memberKey rolePriorityMap getRoleFunc getOrdinalFunc b := by
  unfold sortMembersLess memberKey
  rw [Prod.Lex.lt_iff]
  by_cases h : mapIndex rolePriorityMap (getRoleFunc a) = mapIndex rolePriorityMap (getRoleFunc b)
  · simp [h]
  · simp [h]

/-- With `reverse`, the closure of `sortMembers` compares the sort keys of the swapped
pair. -/
theorem sortMembersLess_reverse {T : Type} (rolePriorityMap : PriorityMap)
    (getRoleFunc : T → String) (getOrdinalFunc : T → Int) (a b : T) :
    sortMembersLess rolePriorityMap getRoleFunc getOrdinalFunc true a b = true ↔
      OrderDual.toDual (memberKey rolePriorityMap getRoleFunc getOrdinalFunc a) <
        OrderDual.toDual (memberKey rolePriorityMap getRoleFunc getOrdinalFunc b) := by
  rw [OrderDual.toDual_lt_toDual]
  unfold sortMembersLess memberKey
  rw [Prod.Lex.lt_iff]
  by_cases h : mapIndex rolePriorityMap (getRoleFunc b) = mapIndex rolePriorityMap (getRoleFunc a)
  · simp [h]
  · simp [h]

/-- Two items have the same sort key exactly when they agree in priority and ordinal. -/
theorem memberKey_eq_iff {T : Type} (rolePriorityMap : PriorityMap)
    (getRoleFunc : T → String) (getOrdinalFunc : T → Int) (a : T) (p o : Int) :
    memberKey rolePriorityMap getRoleFunc getOrdinalFunc a = toLex (p, o) ↔
      mapIndex rolePriorityMap (getRoleFunc a) = p ∧ getOrdinalFunc a = o := by
  unfold memberKey
  rw [toLex_inj, Prod.mk.injEq]

/-- `sortMembers` is stable in either direction: the items of each priority and ordinal
keep their input order. -/
theorem sortMembers_filter_key {T : Type} (items : List T) (rolePriorityMap : PriorityMap)
    (getRoleFunc : T → String) (getOrdinalFunc : T → Int) (reverse : Bool) (p o : Int) :
    (sortMembers items rolePriorityMap getRoleFunc getOrdinalFunc reverse).filter
        (fun a => decide (mapIndex rolePriorityMap (getRoleFunc a) = p ∧ getOrdinalFunc a = o)) =
      items.filter
        (fun a => decide (mapIndex rolePriorityMap (getRoleFunc a) = p ∧ getOrdinalFunc a = o)) := by
  have hfun : (fun a : T =>
        decide (mapIndex rolePriorityMap (getRoleFunc a) = p ∧ getOrdinalFunc a = o)) =
      (fun a : T =>
        decide (memberKey rolePriorityMap getRoleFunc getOrdinalFunc a = toLex (p, o))) := by
    funext a
    exact decide_eq_decide.mpr (memberKey_eq_iff rolePriorityMap getRoleFunc getOrdinalFunc a p o).symm
  rw [hfun]
  unfold sortMembers
  cases reverse with
  | false =>
    exact sliceStable_stable _ (memberKey rolePriorityMap getRoleFunc getOrdinalFunc)
      (sortMembersLess_forward rolePriorityMap getRoleFunc getOrdinalFunc) (toLex (p, o)) items
  | true =>
    have h := sliceStable_stable
      (sortMembersLess rolePriorityMap getRoleFunc getOrdinalFunc true)
      (fun a => OrderDual.toDual (memberKey rolePriorityMap getRoleFunc getOrdinalFunc a))
      (sortMembersLess_reverse rolePriorityMap getRoleFunc getOrdinalFunc)
      (OrderDual.toDual (toLex (p, o))) items
    simpa only [OrderDual.toDual_inj, EmbeddingLike.apply_eq_iff_eq] using h

/-- Without `reverse`, the result of `sortMembers` is ordered by ascending sort key. -/
theorem sortMembers_forward_sorted {T : Type} (items : List T) (rolePriorityMap : PriorityMap)
    (getRoleFunc : T → String) (getOrdinalFunc : T → Int) :
    (sortMembers items rolePriorityMap getRoleFunc getOrdinalFunc false).Pairwise
      (fun a b => memberKey rolePriorityMap getRoleFunc getOrdinalFunc a ≤
        memberKey rolePriorityMap getRoleFunc getOrdinalFunc b) :=
  sliceStable_sorted _ (memberKey rolePriorityMap getRoleFunc getOrdinalFunc)
    (sortMembersLess_forward rolePriorityMap getRoleFunc getOrdinalFunc) items

/-- With `reverse`, the result of `sortMembers` is ordered by descending sort key. -/
theorem sortMembers_reverse_sorted {T : Type} (items : List T) (rolePriorityMap : PriorityMap)
    (getRoleFunc : T → String) (getOrdinalFunc : T → Int) :
    (sortMembers items rolePriorityMap getRoleFunc getOrdinalFunc true).Pairwise
      (fun a b => memberKey rolePriorityMap getRoleFunc getOrdinalFunc b ≤
        memberKey rolePriorityMap getRoleFunc getOrdinalFunc a) :=
  sliceStable_sorted _
    (fun a => OrderDual.toDual (memberKey rolePriorityMap getRoleFunc getOrdinalFunc a))
    (sortMembersLess_reverse rolePriorityMap getRoleFunc getOrdinalFunc) items

/-- C8: `sortMembers` with `reverse = false` returns a permutation of the items, ordered by
role priority ascending (a role absent from the map has priority 0) and by ordinal
ascending among items of equal priority, and it is stable: the items of each priority
and ordinal come out in their input order. With the tiers of the source the ascending
order is unknown (0), empty, learner, the three follower tiers, leader. -/
theorem sortMembers_ascending {T : Type} (items : List T) (rolePriorityMap : PriorityMap)
    (getRoleFunc : T → String) (getOrdinalFunc : T → Int) :
    (sortMembers items rolePriorityMap getRoleFunc getOrdinalFunc false).Perm items ∧
    (sortMembers items rolePriorityMap getRoleFunc getOrdinalFunc false).Pairwise
      (fun a b =>
        (rolePriorityMap.lookup (getRoleFunc a)).getD 0 <
            (rolePriorityMap.lookup (getRoleFunc b)).getD 0 ∨
        ((rolePriorityMap.lookup (getRoleFunc a)).getD 0 =
            (rolePriorityMap.lookup (getRoleFunc b)).getD 0 ∧
          getOrdinalFunc a ≤ getOrdinalFunc b)) ∧
    (∀ p o : Int,
      (sortMembers items rolePriorityMap getRoleFunc getOrdinalFunc false).filter
          (fun a => decide ((rolePriorityMap.lookup (getRoleFunc a)).getD 0 = p ∧
            getOrdinalFunc a = o)) =
        items.filter
          (fun a => decide ((rolePriorityMap.lookup (getRoleFunc a)).getD 0 = p ∧
            getOrdinalFunc a = o))) ∧
    (0 < emptyPriority ∧ emptyPriority < learnerPriority ∧
      learnerPriority < followerNonePriority ∧
      followerNonePriority < followerReadonlyPriority ∧
      followerReadonlyPriority < followerReadWritePriority ∧
      followerReadWritePriority < leaderPriority) := by
  refine ⟨sliceStable_perm _ items, ?_, ?_, by decide⟩
  · refine (sortMembers_forward_sorted items rolePriorityMap getRoleFunc getOrdinalFunc).imp ?_
    intro a b hab
    exact (Prod.Lex.le_iff _ _).mp hab
  · intro p o
    exact sortMembers_filter_key items rolePriorityMap getRoleFunc getOrdinalFunc false p o

/-- C9: `sortMembers` with `reverse = true` returns a permutation of the items, ordered by
role priority descending and by ordinal descending among items of equal priority, and
it is stable: the items of each priority and ordinal come out in their input order. -/
theorem sortMembers_descending {T : Type} (items : List T) (rolePriorityMap : PriorityMap)
    (getRoleFunc : T → String) (getOrdinalFunc : T → Int) :
    (sortMembers items rolePriorityMap getRoleFunc getOrdinalFunc true).Perm items ∧
    (sortMembers items rolePriorityMap getRoleFunc getOrdinalFunc true).Pairwise
      (fun a b =>
        (rolePriorityMap.lookup (getRoleFunc a)).getD 0 >
            (rolePriorityMap.lookup (getRoleFunc b)).getD 0 ∨
        ((rolePriorityMap.lookup (getRoleFunc a)).getD 0 =
            (rolePriorityMap.lookup (getRoleFunc b)).getD 0 ∧
          getOrdinalFunc a ≥ getOrdinalFunc b)) ∧
    ∀ p o : Int,
      (sortMembers items rolePriorityMap getRoleFunc getOrdinalFunc true).filter
          (fun a => decide ((rolePriorityMap.lookup (getRoleFunc a)).getD 0 = p ∧
            getOrdinalFunc a = o)) =
        items.filter
          (fun a => decide ((rolePriorityMap.lookup (getRoleFunc a)).getD 0 = p ∧
            getOrdinalFunc a = o)) := by
  refine ⟨sliceStable_perm _ items, ?_, ?_⟩
  · refine (sortMembers_reverse_sorted items rolePriorityMap getRoleFunc getOrdinalFunc).imp ?_
    intro a b hab
    rcases (Prod.Lex.le_iff _ _).mp hab with h | ⟨h1, h2⟩
    · exact Or.inl h
    · exact Or.inr ⟨h1.symm, h2⟩
  · intro p o
    exact sortMembers_filter_key items rolePriorityMap getRoleFunc getOrdinalFunc true p o

/-- A list sorted by a key whose values are pairwise distinct is strictly sorted. -/
theorem pairwise_lt_of_le_of_distinct {T κ : Type} [LinearOrder κ] (key : T → κ) (l : List T)
    (hsorted : l.Pairwise (fun a b => key a ≤ key b))
    (hdistinct : l.Pairwise (fun a b => key a ≠ key b)) :
    l.Pairwise (fun a b => key a < key b) :=
  (hsorted.and hdistinct).imp (fun h => lt_of_le_of_ne h.1 h.2)

/-- For any priority map: when no two items share priority and ordinal, sorting the
ascending result in reverse gives the ascending result reversed. -/
theorem sortMembers_reverse_of_distinct {T : Type} (items : List T)
    (rolePriorityMap : PriorityMap) (getRoleFunc : T → String) (getOrdinalFunc : T → Int)
    (hdistinct : items.Pairwise (fun a b =>
      memberKey rolePriorityMap getRoleFunc getOrdinalFunc a ≠
        memberKey rolePriorityMap getRoleFunc getOrdinalFunc b)) :
    sortMembers (sortMembers items rolePriorityMap getRoleFunc getOrdinalFunc false)
        rolePriorityMap getRoleFunc getOrdinalFunc true =
      (sortMembers items rolePriorityMap getRoleFunc getOrdinalFunc false).reverse := by
  have hsymm : ∀ {x y : T}, memberKey rolePriorityMap getRoleFunc getOrdinalFunc x ≠
      memberKey rolePriorityMap getRoleFunc getOrdinalFunc y →
      memberKey rolePriorityMap getRoleFunc getOrdinalFunc y ≠
        memberKey rolePriorityMap getRoleFunc getOrdinalFunc x := fun h => h.symm
  have hperm1 : (sortMembers items rolePriorityMap getRoleFunc getOrdinalFunc false).Perm items :=
    sliceStable_perm _ items
  have hperm2 : (sortMembers (sortMembers items rolePriorityMap getRoleFunc getOrdinalFunc false)
      rolePriorityMap getRoleFunc getOrdinalFunc true).Perm
      (sortMembers items rolePriorityMap getRoleFunc getOrdinalFunc false) :=
    sliceStable_perm _ _
  have hd1 := (hperm1.pairwise_iff hsymm).mpr hdistinct
  have hd2 := (hperm2.pairwise_iff hsymm).mpr hd1
  have hasc := pairwise_lt_of_le_of_distinct _ _
    (sortMembers_forward_sorted items rolePriorityMap getRoleFunc getOrdinalFunc) hd1
  have hdesc := pairwise_lt_of_le_of_distinct
    (fun a => OrderDual.toDual (memberKey rolePriorityMap getRoleFunc getOrdinalFunc a)) _
    (sortMembers_reverse_sorted
      (sortMembers items rolePriorityMap getRoleFunc getOrdinalFunc false)
      rolePriorityMap getRoleFunc getOrdinalFunc)
    (hd2.imp (fun h => fun h2 => h (OrderDual.toDual_inj.mp h2)))
  have hrev : (sortMembers items rolePriorityMap getRoleFunc getOrdinalFunc false).reverse.Pairwise
      (fun a b => OrderDual.toDual (memberKey rolePriorityMap getRoleFunc getOrdinalFunc a) <
        OrderDual.toDual (memberKey rolePriorityMap getRoleFunc getOrdinalFunc b)) := by
    rw [List.pairwise_reverse]
    exact hasc.imp (fun h => OrderDual.toDual_lt_toDual.mpr h)
  haveI : IsAntisymm T (fun a b =>
      OrderDual.toDual (memberKey rolePriorityMap getRoleFunc getOrdinalFunc a) <
        OrderDual.toDual (memberKey rolePriorityMap getRoleFunc getOrdinalFunc b)) :=
    ⟨fun _ _ h1 h2 => absurd h1 (lt_asymm h2)⟩
  exact List.eq_of_perm_of_sorted (hperm2.trans (List.reverse_perm _).symm) hdesc hrev

/-- C10 (order-reversal law): for every role list and every item list in which no two
items have both the same priority under `ComposeRolePriorityMap` and the same ordinal,
sorting ascending and then sorting that result with `reverse = true` yields exactly the
reverse of the ascending result. -/
theorem sortMembers_reverse_law {T : Type} (ToLower : String → String)
    (roles : List ReplicaRole) (items : List T)
    (getRoleFunc : T → String) (getOrdinalFunc : T → Int)
    (hdistinct : items.Pairwise (fun a b =>
      ¬ (mapIndex (ComposeRolePriorityMap ToLower roles) (getRoleFunc a) =
            mapIndex (ComposeRolePriorityMap ToLower roles) (getRoleFunc b) ∧
          getOrdinalFunc a = getOrdinalFunc b))) :
    sortMembers
        (sortMembers items (ComposeRolePriorityMap ToLower roles) getRoleFunc getOrdinalFunc false)
        (ComposeRolePriorityMap ToLower roles) getRoleFunc getOrdinalFunc true =
      (sortMembers items (ComposeRolePriorityMap ToLower roles) getRoleFunc getOrdinalFunc
        false).reverse := by
  refine sortMembers_reverse_of_distinct items _ getRoleFunc getOrdinalFunc ?_
  refine hdistinct.imp ?_
  intro a b h hkey
  refine h ((memberKey_eq_iff _ getRoleFunc getOrdinalFunc a _ _).mp ?_)
  exact hkey

/-- Witness for C10: a leader, two followers and three pods without a declared role,
with pairwise distinct (priority, ordinal) keys. -/
theorem sortMembers_reverse_law_witness :
    sortMembers
        (sortMembers [("follower", 2), ("leader", 1), ("", 3), ("follower", 0), ("", 4),
            ("observer", 5)]
          (ComposeRolePriorityMap asciiToLower
            [⟨"Leader", true, ReadWriteMode, true⟩, ⟨"Follower", false, ReadonlyMode, true⟩])
          Prod.fst Prod.snd false)
        (ComposeRolePriorityMap asciiToLower
          [⟨"Leader", true, ReadWriteMode, true⟩, ⟨"Follower", false, ReadonlyMode, true⟩])
        Prod.fst Prod.snd true =
      (sortMembers [("follower", 2), ("leader", 1), ("", 3), ("follower", 0), ("", 4),
            ("observer", 5)]
          (ComposeRolePriorityMap asciiToLower
            [⟨"Leader", true, ReadWriteMode, true⟩, ⟨"Follower", false, ReadonlyMode, true⟩])
          Prod.fst Prod.snd false).reverse :=
  sortMembers_reverse_law asciiToLower
    [⟨"Leader", true, ReadWriteMode, true⟩, ⟨"Follower", false, ReadonlyMode, true⟩]
    [("follower", 2), ("leader", 1), ("", 3), ("follower", 0), ("", 4), ("observer", 5)]
    Prod.fst Prod.snd (by decide)

/-! ## Theorems: role priority map -/

/-- Reading a key that a filter on other keys kept gives what the map gave. -/
theorem lookup_filter_ne (m : PriorityMap) (key other : String) (h : key ≠ other) :
    (m.filter (fun e => e.1 != other)).lookup key = m.lookup key := by
  induction m with
  | nil => rfl
  | cons e rest ih =>
    obtain ⟨k, v⟩ := e
    by_cases hk : k = other
    · have hne : ¬ (key == k) = true := by
        rw [beq_iff_eq]
        exact fun h2 => h (h2.trans hk)
      simp only [List.filter_cons, hk, bne_self_eq_false, Bool.false_eq_true, if_false,
        List.lookup_cons]
      rw [← hk, Bool.eq_false_iff.mpr hne]
      simpa [hk] using ih
    · have hb : (k != other) = true := by simpa using hk
      simp only [List.filter_cons, hb, if_true, List.lookup_cons, ih]

/-- Go map semantics of `mapSet`: the written key reads the written value, every other key
reads what it read before. -/
theorem lookup_mapSet (m : PriorityMap) (key other : String) (value : Int) :
    (mapSet m other value).lookup key = if key = other then some value else m.lookup key := by
  unfold mapSet
  by_cases h : key = other
  · simp [h]
  · have hb : (key == other) = false := by simpa using h
    rw [List.lookup_cons, hb, if_neg h]
    exact lookup_filter_ne m key other h

/-- The entries after a map write are the written entry and entries present before. -/
theorem mem_mapSet (m : PriorityMap) (key : String) (value : Int) (e : String × Int)
    (he : e ∈ mapSet m key value) : e = (key, value) ∨ e ∈ m := by
  unfold mapSet at he
  rcases List.mem_cons.mp he with h | h
  · exact Or.inl h
  · exact Or.inr (List.mem_filter.mp h).1

/-- One iteration of the loop of `ComposeRolePriorityMap`. -/
theorem composeRolePriorityMap_append (ToLower : String → String) (roles : List ReplicaRole)
    (role : ReplicaRole) :
    ComposeRolePriorityMap ToLower (roles ++ [role]) =
      (if role.IsLeader then
        mapSet (ComposeRolePriorityMap ToLower roles) (ToLower role.Name) leaderPriority
      else if role.CanVote then
        if role.AccessMode = NoneMode then
          mapSet (ComposeRolePriorityMap ToLower roles) (ToLower role.Name) followerNonePriority
        else if role.AccessMode = ReadonlyMode then
          mapSet (ComposeRolePriorityMap ToLower roles) (ToLower role.Name)
            followerReadonlyPriority
        else if role.AccessMode = ReadWriteMode then
          mapSet (ComposeRolePriorityMap ToLower roles) (ToLower role.Name)
            followerReadWritePriority
        else ComposeRolePriorityMap ToLower roles
      else mapSet (ComposeRolePriorityMap ToLower roles) (ToLower role.Name) learnerPriority) := by
  unfold ComposeRolePriorityMap
  rw [List.foldl_append]
  rfl

/-- An iteration either leaves the map as it is or writes the lower-cased name of the
role with one of the five role tiers. -/
theorem composeRolePriorityMap_append_cases (ToLower : String → String)
    (roles : List ReplicaRole) (role : ReplicaRole) :
    ComposeRolePriorityMap ToLower (roles ++ [role]) = ComposeRolePriorityMap ToLower roles ∨
    ∃ tier ∈ [leaderPriority, followerReadWritePriority, followerReadonlyPriority,
        followerNonePriority, learnerPriority],
      ComposeRolePriorityMap ToLower (roles ++ [role]) =
        mapSet (ComposeRolePriorityMap ToLower roles) (ToLower role.Name) tier := by
  rw [composeRolePriorityMap_append]
  have d1 : ReadonlyMode ≠ NoneMode := by decide
  have d2 : ReadWriteMode ≠ NoneMode := by decide
  have d3 : ReadWriteMode ≠ ReadonlyMode := by decide
  by_cases h1 : role.IsLeader = true
  · exact Or.inr ⟨leaderPriority, by simp, by simp [h1]⟩
  · by_cases h2 : role.CanVote = true
    · by_cases h3 : role.AccessMode = NoneMode
      · exact Or.inr ⟨followerNonePriority, by simp, by simp [h1, h2, h3]⟩
      · by_cases h4 : role.AccessMode = ReadonlyMode
        · exact Or.inr ⟨followerReadonlyPriority, by simp, by simp [h1, h2, h4, d1]⟩
        · by_cases h5 : role.AccessMode = ReadWriteMode
          · exact Or.inr ⟨followerReadWritePriority, by simp, by simp [h1, h2, h5, d2, d3]⟩
          · exact Or.inl (by simp [h1, h2, h3, h4, h5])
    · exact Or.inr ⟨learnerPriority, by simp, by simp [h1, h2]⟩

/-- For a role whose access mode is one of the three constants, an iteration writes the
tier the specification gives to the role. -/
theorem composeRolePriorityMap_append_valid (ToLower : String → String)
    (roles : List ReplicaRole) (role : ReplicaRole)
    (hmode : role.AccessMode = NoneMode ∨ role.AccessMode = ReadonlyMode ∨
      role.AccessMode = ReadWriteMode) :
    ComposeRolePriorityMap ToLower (roles ++ [role]) =
      mapSet (ComposeRolePriorityMap ToLower roles) (ToLower role.Name) (specRoleTier role) := by
  rw [composeRolePriorityMap_append]
  unfold specRoleTier
  by_cases h1 : role.IsLeader = true
  · simp [h1]
  · by_cases h2 : role.CanVote = true
    · rcases hmode with h | h | h
      · simp [h1, h2, h, NoneMode, ReadonlyMode, ReadWriteMode]
      · simp [h1, h2, h, NoneMode, ReadonlyMode, ReadWriteMode]
      · simp [h1, h2, h, NoneMode, ReadonlyMode, ReadWriteMode]
    · simp [h1, h2]

/-- A key that is the lower-cased name of no role reads what the seed map reads: the
empty tier for the empty string, nothing otherwise. -/
theorem lookup_composeRolePriorityMap_of_not_name (ToLower : String → String)
    (roles : List ReplicaRole) (key : String) (h : ∀ role ∈ roles, ToLower role.Name ≠ key) :
    (ComposeRolePriorityMap ToLower roles).lookup key =
      if key = "" then some emptyPriority else none := by
  induction roles using List.reverseRecOn with
  | nil =>
    show (mapSet [] "" emptyPriority).lookup key = _
    rw [lookup_mapSet]
    rfl
  | append_singleton roles role ih =>
    have hrole : ToLower role.Name ≠ key := h role (by simp)
    have ih2 := ih (fun r hr => h r (List.mem_append_left _ hr))
    rcases composeRolePriorityMap_append_cases ToLower roles role with hc | ⟨tier, -, hc⟩
    · rw [hc]
      exact ih2
    · rw [hc, lookup_mapSet, if_neg (Ne.symm hrole)]
      exact ih2

/-- The name of a role, lower-cased, reads the tier of the last role of that lower-cased
name, when the access modes are among the three constants. -/
theorem lookup_composeRolePriorityMap_of_last (ToLower : String → String)
    (roles : List ReplicaRole) (key : String) (role : ReplicaRole)
    (hmode : ∀ r ∈ roles, r.AccessMode = NoneMode ∨ r.AccessMode = ReadonlyMode ∨
      r.AccessMode = ReadWriteMode)
    (hlast : roles.reverse.find? (fun r => ToLower r.Name == key) = some role) :
    (ComposeRolePriorityMap ToLower roles).lookup key = some (specRoleTier role) := by
  induction roles using List.reverseRecOn with
  | nil => simp at hlast
  | append_singleton roles r ih =>
    rw [composeRolePriorityMap_append_valid ToLower roles r (hmode r (by simp)), lookup_mapSet]
    rw [List.reverse_append, List.reverse_singleton, List.singleton_append] at hlast
    by_cases hr : ToLower r.Name = key
    · have hb : (ToLower r.Name == key) = true := by simpa using hr
      simp only [List.find?_cons, hb, Option.some.injEq] at hlast
      subst hlast
      rw [if_pos hr.symm]
    · have hb : (ToLower r.Name == key) = false := by simpa using hr
      simp only [List.find?_cons, hb] at hlast
      rw [if_neg (Ne.symm hr)]
      exact ih (fun x hx => hmode x (List.mem_append_left _ hx)) hlast

/-- Every key of the map is the empty string or the lower-cased name of a role, and every
value is one of the six tiers. -/
theorem mem_composeRolePriorityMap (ToLower : String → String) (roles : List ReplicaRole)
    (e : String × Int) (he : e ∈ ComposeRolePriorityMap ToLower roles) :
    (e.1 = "" ∨ ∃ role ∈ roles, e.1 = ToLower role.Name) ∧
    e.2 ∈ [leaderPriority, followerReadWritePriority, followerReadonlyPriority,
      followerNonePriority, learnerPriority, emptyPriority] := by
  induction roles using List.reverseRecOn with
  | nil =>
    have h : e = ("", emptyPriority) := by
      rcases mem_mapSet [] "" emptyPriority e he with h | h
      · exact h
      · cases h
    subst h
    exact ⟨Or.inl rfl, by simp⟩
  | append_singleton roles role ih =>
    have hold : e ∈ ComposeRolePriorityMap ToLower roles →
        (e.1 = "" ∨ ∃ r ∈ roles ++ [role], e.1 = ToLower r.Name) ∧
        e.2 ∈ [leaderPriority, followerReadWritePriority, followerReadonlyPriority,
          followerNonePriority, learnerPriority, emptyPriority] := by
      intro h
      obtain ⟨h1, h2⟩ := ih h
      refine ⟨?_, h2⟩
      rcases h1 with h1 | ⟨r, hr, h1⟩
      · exact Or.inl h1
      · exact Or.inr ⟨r, List.mem_append_left _ hr, h1⟩
    rcases composeRolePriorityMap_append_cases ToLower roles role with hc | ⟨tier, htier, hc⟩
    · rw [hc] at he
      exact hold he
    · rw [hc] at he
      rcases mem_mapSet _ _ _ e he with h | h
      · subst h
        refine ⟨Or.inr ⟨role, by simp, rfl⟩, ?_⟩
        simp only [List.mem_cons, List.mem_singleton, List.not_mem_nil, or_false] at htier ⊢
        rcases htier with h | h | h | h | h <;> simp [h]
      · exact hold h

/-- The empty string is a key of the map for every list of roles. -/
theorem lookup_composeRolePriorityMap_empty_isSome (ToLower : String → String)
    (roles : List ReplicaRole) :
    ((ComposeRolePriorityMap ToLower roles).lookup "").isSome = true := by
  induction roles using List.reverseRecOn with
  | nil =>
    show ((mapSet [] "" emptyPriority).lookup "").isSome = true
    rw [lookup_mapSet]
    rfl
  | append_singleton roles role ih =>
    rcases composeRolePriorityMap_append_cases ToLower roles role with hc | ⟨tier, -, hc⟩
    · rw [hc]
      exact ih
    · rw [hc, lookup_mapSet]
      split
      · rfl
      · exact ih

/-- C11: when every access mode is None, Readonly or ReadWrite, each lower-cased role name
is mapped by `ComposeRolePriorityMap` to the tier of the last role of the list with that
lower-cased name (leader tier for a leader, else the follower tier of the access mode
for a voting role, else learner tier); and every key of the map is the empty string of
the seed or the lower-cased name of a role. -/
theorem composeRolePriorityMap_last_wins (ToLower : String → String)
    (roles : List ReplicaRole)
    (hmode : ∀ r ∈ roles, r.AccessMode = NoneMode ∨ r.AccessMode = ReadonlyMode ∨
      r.AccessMode = ReadWriteMode) :
    (∀ n, (∃ r ∈ roles, ToLower r.Name = n) →
      ∃ last, roles.reverse.find? (fun r => ToLower r.Name == n) = some last ∧
        (ComposeRolePriorityMap ToLower roles).lookup n = some (specRoleTier last) ∧
        mapIndex (ComposeRolePriorityMap ToLower roles) n = specRoleTier last) ∧
    (∀ e ∈ ComposeRolePriorityMap ToLower roles,
      e.1 = "" ∨ ∃ r ∈ roles, e.1 = ToLower r.Name) := by
  constructor
  · rintro n ⟨r, hr, hn⟩
    cases hfind : roles.reverse.find? (fun r => ToLower r.Name == n) with
    | none =>
      have := List.find?_eq_none.mp hfind r (List.mem_reverse.mpr hr)
      simp [hn] at this
    | some last =>
      have hl := lookup_composeRolePriorityMap_of_last ToLower roles n last hmode hfind
      refine ⟨last, rfl, hl, ?_⟩
      unfold mapIndex
      rw [hl]
      rfl
  · intro e he
    exact (mem_composeRolePriorityMap ToLower roles e he).1

/-- Witness for C11: two roles share the lower-cased name `follower`; the later one, a
read-write follower, gives the tier. -/
theorem composeRolePriorityMap_last_wins_witness :
    (ComposeRolePriorityMap asciiToLower
      [⟨"Leader", true, ReadWriteMode, true⟩, ⟨"follower", false, ReadonlyMode, true⟩,
        ⟨"Follower", false, ReadWriteMode, true⟩, ⟨"learner", false, NoneMode, false⟩]).lookup
      "follower" = some followerReadWritePriority := by
  obtain ⟨last, h1, h2, -⟩ := (composeRolePriorityMap_last_wins asciiToLower
    [⟨"Leader", true, ReadWriteMode, true⟩, ⟨"follower", false, ReadonlyMode, true⟩,
      ⟨"Follower", false, ReadWriteMode, true⟩, ⟨"learner", false, NoneMode, false⟩]
    (by decide)).1 "follower" ⟨⟨"follower", false, ReadonlyMode, true⟩, by decide, by decide⟩
  have h3 : last = ⟨"Follower", false, ReadWriteMode, true⟩ := by
    have h4 : List.find? (fun r => asciiToLower r.Name == "follower")
        ([⟨"Leader", true, ReadWriteMode, true⟩, ⟨"follower", false, ReadonlyMode, true⟩,
          ⟨"Follower", false, ReadWriteMode, true⟩,
          ⟨"learner", false, NoneMode, false⟩] : List ReplicaRole).reverse =
        some ⟨"Follower", false, ReadWriteMode, true⟩ := by decide
    rw [h4] at h1
    exact (Option.some.inj h1).symm
  rw [h2, h3]
  rfl

/-- C12: the six tiers are strictly ordered leader > follower-read-write >
follower-readonly > follower-none > learner > empty > 0, hence non-zero and pairwise
distinct; every value stored by `ComposeRolePriorityMap` is one of them; and a name that
is not a key of the map reads 0, strictly below the empty tier. -/
theorem composeRolePriorityMap_tiers (ToLower : String → String) (roles : List ReplicaRole) :
    (leaderPriority > followerReadWritePriority ∧
      followerReadWritePriority > followerReadonlyPriority ∧
      followerReadonlyPriority > followerNonePriority ∧
      followerNonePriority > learnerPriority ∧
      learnerPriority > emptyPriority ∧ emptyPriority > 0) ∧
    [leaderPriority, followerReadWritePriority, followerReadonlyPriority,
      followerNonePriority, learnerPriority, emptyPriority, 0].Nodup ∧
    (∀ e ∈ ComposeRolePriorityMap ToLower roles,
      e.2 ∈ [leaderPriority, followerReadWritePriority, followerReadonlyPriority,
        followerNonePriority, learnerPriority, emptyPriority]) ∧
    (∀ name, name ∉ (ComposeRolePriorityMap ToLower roles).map Prod.fst →
      mapIndex (ComposeRolePriorityMap ToLower roles) name = 0 ∧
      mapIndex (ComposeRolePriorityMap ToLower roles) name < emptyPriority) := by
  refine ⟨by decide, by decide, ?_, ?_⟩
  · intro e he
    exact (mem_composeRolePriorityMap ToLower roles e he).2
  · intro name hname
    have hnone : (ComposeRolePriorityMap ToLower roles).lookup name = none := by
      rw [List.lookup_eq_none_iff]
      intro e he
      rw [bne_iff_ne]
      intro hk
      exact hname (List.mem_map.mpr ⟨e, he, hk.symm⟩)
    have h0 : mapIndex (ComposeRolePriorityMap ToLower roles) name = 0 := by
      unfold mapIndex
      rw [hnone]
      rfl
    rw [h0]
    exact ⟨rfl, by decide⟩

/-- C13, as the code has it: for every list of roles the map of `ComposeRolePriorityMap`
contains the empty-string key, and it maps it to the empty tier when no role has an
empty lower-cased name. -/
theorem composeRolePriorityMap_empty_key (ToLower : String → String)
    (roles : List ReplicaRole) :
    ((ComposeRolePriorityMap ToLower roles).lookup "").isSome = true ∧
    ((∀ role ∈ roles, ToLower role.Name ≠ "") →
      (ComposeRolePriorityMap ToLower roles).lookup "" = some emptyPriority) := by
  refine ⟨lookup_composeRolePriorityMap_empty_isSome ToLower roles, fun h => ?_⟩
  rw [lookup_composeRolePriorityMap_of_not_name ToLower roles "" h]
  rfl

/-- Witness for C13: with a leader and a follower role, both named, the empty string has
the empty tier. -/
theorem composeRolePriorityMap_empty_key_witness :
    (∀ role ∈ ([⟨"Leader", true, ReadWriteMode, true⟩,
        ⟨"Follower", false, ReadonlyMode, true⟩] : List ReplicaRole),
      asciiToLower role.Name ≠ "") ∧
    (ComposeRolePriorityMap asciiToLower
      [⟨"Leader", true, ReadWriteMode, true⟩,
        ⟨"Follower", false, ReadonlyMode, true⟩]).lookup "" = some emptyPriority :=
  ⟨by decide, (composeRolePriorityMap_empty_key asciiToLower
    [⟨"Leader", true, ReadWriteMode, true⟩, ⟨"Follower", false, ReadonlyMode, true⟩]).2
    (by decide)⟩

/-- Counterexample to C13 as stated: a role with an empty name is written under the
empty-string key and overwrites the seed, so the key is mapped to the tier of that role
(here follower-readonly) and not to the empty tier. -/
theorem composeRolePriorityMap_empty_key_overwritten :
    (ComposeRolePriorityMap asciiToLower
      [⟨"leader", true, ReadWriteMode, true⟩, ⟨"", false, ReadonlyMode, true⟩]).lookup "" =
      some followerReadonlyPriority ∧
    mapIndex (ComposeRolePriorityMap asciiToLower
      [⟨"leader", true, ReadWriteMode, true⟩, ⟨"", false, ReadonlyMode, true⟩]) "" ≠
      emptyPriority := by
  decide

/-! ## Theorems: action images -/

/-- A string has positive length exactly when it is not the empty string. -/
theorem string_length_pos_iff (s : String) : s.length > 0 ↔ s ≠ "" := by
  obtain ⟨data⟩ := s
  cases data with
  | nil => simp [String.length]
  | cons c cs =>
    simp only [String.length, List.length_cons, gt_iff_lt, Nat.zero_lt_succ, ne_eq, true_iff]
    intro h
    have := congrArg String.data h
    cases this

/-- The closure `getImage` returns the configured image of the action. -/
theorem getImage_eq (action : Option Action) :
    getImage action = (match action with
      | some action => action.Image
      | none => "") := by
  unfold getImage
  cases action with
  | none => rfl
  | some a =>
    by_cases h : a.Image.length > 0
    · simp only [h, if_true]
    · simp only [h, if_false]
      by_contra hne
      exact h ((string_length_pos_iff _).mpr (Ne.symm hne))

/-- One step of the walk: a non-empty image is returned, an empty one is skipped. -/
theorem find_cons_getD (image : String) (rest : List String) (dflt : String) :
    (if image.length > 0 then image else (rest.find? (fun i => i != "")).getD dflt) =
      ((image :: rest).find? (fun i => i != "")).getD dflt := by
  by_cases h : image = ""
  · subst h
    rfl
  · have hpos : image.length > 0 := (string_length_pos_iff image).mpr h
    have hb : (image != "") = true := by simpa using h
    simp only [hpos, if_true, List.find?_cons, hb, Option.getD_some]

/-- The body of each case of the `switch` is the walk from the position of the case. -/
theorem case_eq_specActionImage (c : ActionConstants) (r : MembershipReconfiguration) :
    casePromote c r = specActionImage c r 0 ∧
    caseLogSync c r = specActionImage c r 1 ∧
    caseMemberLeaveNotifying c r = specActionImage c r 2 ∧
    caseMemberJoinNotifying c r = specActionImage c r 3 ∧
    caseSwitchover c r = specActionImage c r 4 := by
  have h4 : caseSwitchover c r = specActionImage c r 4 := by
    unfold caseSwitchover specActionImage configuredImages
    simp only [getImage_eq, List.map_cons, List.map_nil, List.drop_succ_cons, List.drop_zero]
    exact find_cons_getD _ [] _
  have h3 : caseMemberJoinNotifying c r = specActionImage c r 3 := by
    unfold caseMemberJoinNotifying
    rw [h4]
    unfold specActionImage configuredImages
    simp only [getImage_eq, List.map_cons, List.map_nil, List.drop_succ_cons, List.drop_zero]
    exact find_cons_getD _ _ _
  have h2 : caseMemberLeaveNotifying c r = specActionImage c r 2 := by
    unfold caseMemberLeaveNotifying
    rw [h3]
    unfold specActionImage configuredImages
    simp only [getImage_eq, List.map_cons, List.map_nil, List.drop_succ_cons, List.drop_zero]
    exact find_cons_getD _ _ _
  have h1 : caseLogSync c r = specActionImage c r 1 := by
    unfold caseLogSync
    rw [h2]
    unfold specActionImage configuredImages
    simp only [getImage_eq, List.map_cons, List.map_nil, List.drop_succ_cons, List.drop_zero]
    exact find_cons_getD _ _ _
  have h0 : casePromote c r = specActionImage c r 0 := by
    unfold casePromote
    rw [h1]
    unfold specActionImage configuredImages
    simp only [getImage_eq, List.map_cons, List.map_nil, List.drop_succ_cons, List.drop_zero]
    exact find_cons_getD _ _ _
  exact ⟨h0, h1, h2, h3, h4⟩

/-- For a present policy, `findActionImage` of the job type at a position of the chain is
the walk from that position. -/
theorem findActionImage_eq_spec (c : ActionConstants) (hc : c.Distinct)
    (r : MembershipReconfiguration) (position : Nat) (actionType : String)
    (ht : (actionChain c)[position]? = some actionType) :
    findActionImage c (some r) actionType = specActionImage c r position := by
  obtain ⟨h0, h1, h2, h3, h4⟩ := case_eq_specActionImage c r
  unfold ActionConstants.Distinct at hc
  simp only [List.nodup_cons, List.mem_cons, List.mem_singleton, not_or, List.not_mem_nil,
    not_false_eq_true, List.nodup_nil, and_true] at hc
  obtain ⟨⟨p1, p2, p3, p4⟩, ⟨l1, l2, l3⟩, ⟨m1, m2⟩, j1⟩ := hc
  unfold actionChain at ht
  unfold findActionImage
  match position, ht with
  | 0, ht =>
    simp only [List.getElem?_cons_zero, Option.some.injEq] at ht
    subst ht
    simp only [if_true, h0]
  | 1, ht =>
    simp only [List.getElem?_cons_succ, List.getElem?_cons_zero, Option.some.injEq] at ht
    subst ht
    simp only [Ne.symm p1, if_false, if_true, h1]
  | 2, ht =>
    simp only [List.getElem?_cons_succ, List.getElem?_cons_zero, Option.some.injEq] at ht
    subst ht
    simp only [Ne.symm p2, Ne.symm l1, if_false, if_true, h2]
  | 3, ht =>
    simp only [List.getElem?_cons_succ, List.getElem?_cons_zero, Option.some.injEq] at ht
    subst ht
    simp only [Ne.symm p3, Ne.symm l2, Ne.symm m1, if_false, if_true, h3]
  | 4, ht =>
    simp only [List.getElem?_cons_succ, List.getElem?_cons_zero, Option.some.injEq] at ht
    subst ht
    simp only [Ne.symm p4, Ne.symm l3, Ne.symm m2, Ne.symm j1, if_false, if_true, h4]
  | n + 5, ht =>
    simp at ht

/-- The walk from a position whose image is configured stops at once. -/
theorem specActionImage_of_configured (c : ActionConstants) (r : MembershipReconfiguration)
    (position : Nat) (image : String)
    (himage : (configuredImages r)[position]? = some image) (hne : image ≠ "") :
    specActionImage c r position = image := by
  obtain ⟨hlt, hget⟩ := List.getElem?_eq_some.mp himage
  unfold specActionImage
  rw [List.drop_eq_getElem_cons hlt, hget]
  have hb : (image != "") = true := by simpa using hne
  simp only [List.find?_cons, hb, Option.getD_some]

/-- The walk over images that are all empty ends at the default image. -/
theorem specActionImage_of_all_empty (c : ActionConstants) (r : MembershipReconfiguration)
    (position : Nat) (hempty : ∀ image ∈ configuredImages r, image = "") :
    specActionImage c r position = c.defaultActionImage := by
  unfold specActionImage
  have hnone : ((configuredImages r).drop position).find? (fun image => image != "") = none := by
    rw [List.find?_eq_none]
    intro image hmem
    have := hempty image (List.mem_of_mem_drop hmem)
    simp [this]
  rw [hnone]
  rfl

/-- C14: for a present policy and each of the five job types, `findActionImage` returns
the first non-empty configured image found by walking the chain promote, logSync,
memberLeave, memberJoin, switchover forward from the position of the requested type, and
the default image when there is none. In particular, when only the switchover image is
configured all five types resolve to it, and a type whose own image is configured
resolves to its own image. -/
theorem findActionImage_fallback (c : ActionConstants) (hc : c.Distinct)
    (r : MembershipReconfiguration) :
    (∀ (position : Nat) (actionType : String), (actionChain c)[position]? = some actionType →
      findActionImage c (some r) actionType = specActionImage c r position) ∧
    (∀ image, image ≠ "" → configuredImages r = ["", "", "", "", image] →
      ∀ actionType ∈ actionChain c, findActionImage c (some r) actionType = image) ∧
    (∀ (position : Nat) (actionType image : String),
      (actionChain c)[position]? = some actionType →
      (configuredImages r)[position]? = some image → image ≠ "" →
      findActionImage c (some r) actionType = image) := by
  refine ⟨fun position actionType ht => findActionImage_eq_spec c hc r position actionType ht,
    ?_, ?_⟩
  · intro image hne himages actionType hmem
    obtain ⟨position, ht⟩ := List.mem_iff_getElem?.mp hmem
    rw [findActionImage_eq_spec c hc r position actionType ht]
    have hb : (image != "") = true := by simpa using hne
    have hlt : position < 5 := by
      have := (List.getElem?_eq_some.mp ht).1
      simpa [actionChain] using this
    unfold specActionImage
    rw [himages]
    interval_cases position <;> simp [List.find?_cons, hb]
  · intro position actionType image ht himage hne
    rw [findActionImage_eq_spec c hc r position actionType ht]
    exact specActionImage_of_configured c r position image himage hne

/-- Witness for C14: with only the switchover image configured, `member-leave` resolves to
the switchover image. -/
theorem findActionImage_fallback_witness :
    sampleConstants.Distinct ∧
    findActionImage sampleConstants (some switchoverOnly) "member-leave" =
      "registry/switchover:1" :=
  ⟨by unfold ActionConstants.Distinct; decide,
    (findActionImage_fallback sampleConstants (by unfold ActionConstants.Distinct; decide)
      switchoverOnly).2.1 "registry/switchover:1" (by decide) (by decide) "member-leave"
      (by decide)⟩

/-- C15, as the code has it: for a present policy in which every action is missing or has
an empty image, `findActionImage` returns the default image for each of the five job
types; for an absent (nil) policy it returns the empty string. -/
theorem findActionImage_nothing_configured (c : ActionConstants) (hc : c.Distinct) :
    (∀ r : MembershipReconfiguration, (∀ image ∈ configuredImages r, image = "") →
      ∀ actionType ∈ actionChain c,
        findActionImage c (some r) actionType = c.defaultActionImage) ∧
    (∀ actionType, findActionImage c none actionType = "") := by
  refine ⟨?_, fun _ => rfl⟩
  intro r hempty actionType hmem
  obtain ⟨position, ht⟩ := List.mem_iff_getElem?.mp hmem
  rw [findActionImage_eq_spec c hc r position actionType ht]
  exact specActionImage_of_all_empty c r position hempty

/-- Witness for C15: a present policy without any action resolves `promote` to the
default image. -/
theorem findActionImage_nothing_configured_witness :
    sampleConstants.Distinct ∧
    findActionImage sampleConstants (some ⟨none, none, none, none, none⟩) "promote" =
      "busybox:latest" :=
  ⟨by unfold ActionConstants.Distinct; decide,
    (findActionImage_nothing_configured sampleConstants
      (by unfold ActionConstants.Distinct; decide)).1 ⟨none, none, none, none, none⟩
      (by decide) "promote" (by decide)⟩

/-- Counterexample to C15 as stated: for an absent (nil) policy `findActionImage` returns
the empty string for all five job types, which is not the default image. -/
theorem findActionImage_nil_policy :
    (∀ actionType ∈ actionChain sampleConstants,
      findActionImage sampleConstants none actionType = "") ∧
    findActionImage sampleConstants none "promote" ≠ sampleConstants.defaultActionImage := by
  decide

/-! ## Theorems: annotation scopes -/

/-- A key followed by a suffix has that suffix, and trimming it gives the key back. -/
theorem trimSuffix_append (key suffix : String) :
    HasSuffix (key ++ suffix) suffix = true ∧ TrimSuffix (key ++ suffix) suffix = key := by
  have h1 : HasSuffix (key ++ suffix) suffix = true := by
    unfold HasSuffix
    rw [decide_eq_true_eq, String.data_append]
    exact List.suffix_append _ _
  refine ⟨h1, ?_⟩
  unfold TrimSuffix
  rw [if_pos h1]
  apply String.ext
  simp [String.data_append]

/-- A key that has a suffix is its trimmed key followed by the suffix. -/
theorem trimSuffix_append_self (key suffix : String) (h : HasSuffix key suffix = true) :
    TrimSuffix key suffix ++ suffix = key := by
  unfold HasSuffix at h
  rw [decide_eq_true_eq] at h
  obtain ⟨t, ht⟩ := h
  have hkey : key = String.mk t ++ suffix := by
    apply String.ext
    rw [String.data_append, ht]
  rw [hkey, (trimSuffix_append (String.mk t) suffix).2]

/-- A loop that writes the entries of a map under transformed keys, skipping the keys
without image: what a key reads afterwards is the value of a visited entry whose
transformed key it is, or what it read before when there is no such entry. -/
theorem lookup_foldl_insert (f : String → Option String)
    (entries : List (Sigma fun _ : String => String)) (acc : Annotations) (key : String) :
    (∃ e ∈ entries, f e.1 = some key ∧
      (entries.foldl (fun acc e =>
        match f e.1 with
        | some k => acc.insert k e.2
        | none => acc) acc).lookup key = some e.2) ∨
    ((∀ e ∈ entries, f e.1 ≠ some key) ∧
      (entries.foldl (fun acc e =>
        match f e.1 with
        | some k => acc.insert k e.2
        | none => acc) acc).lookup key = acc.lookup key) := by
  induction entries generalizing acc with
  | nil => exact Or.inr ⟨fun e he => absurd he (List.not_mem_nil e), rfl⟩
  | cons x rest ih =>
    rw [List.foldl_cons]
    rcases ih (match f x.1 with
      | some k => acc.insert k x.2
      | none => acc) with ⟨e, he, hf, hl⟩ | ⟨hnone, hl⟩
    · exact Or.inl ⟨e, List.mem_cons_of_mem _ he, hf, hl⟩
    · by_cases hx : f x.1 = some key
      · refine Or.inl ⟨x, List.mem_cons_self _ _, hx, ?_⟩
        rw [hl, hx]
        exact AList.lookup_insert acc
      · refine Or.inr ⟨?_, ?_⟩
        · intro e he
          rcases List.mem_cons.mp he with h | h
          · rw [h]
            exact hx
          · exact hnone e h
        · rw [hl]
          cases hfx : f x.1 with
          | none => rfl
          | some k =>
            have hne : key ≠ k := by
              rintro rfl
              exact hx hfx
            exact AList.lookup_insert_ne hne

/-- When no two keys are transformed into the same key, the loop builds the map that
reads, under a transformed key, what the given map reads under the key. -/
theorem lookup_foldl_insert_iff (f : String → Option String)
    (hf : ∀ a b k, f a = some k → f b = some k → a = b) (m : Annotations)
    (key value : String) :
    (m.entries.foldl (fun (acc : Annotations) e =>
        match f e.1 with
        | some k => acc.insert k e.2
        | none => acc) (∅ : Annotations)).lookup key = some value ↔
      ∃ a, f a = some key ∧ m.lookup a = some value := by
  constructor
  · intro h
    rcases lookup_foldl_insert f m.entries ∅ key with ⟨e, he, hfe, hl⟩ | ⟨-, hl⟩
    · rw [hl] at h
      refine ⟨e.1, hfe, ?_⟩
      have hv : e.2 = value := Option.some.inj h
      rw [← hv]
      exact AList.mem_lookup_iff.mpr he
    · rw [hl, AList.lookup_empty] at h
      cases h
  · rintro ⟨a, hfa, hla⟩
    have hmem : (⟨a, value⟩ : Sigma fun _ : String => String) ∈ m.entries :=
      AList.mem_lookup_iff.mp hla
    rcases lookup_foldl_insert f m.entries ∅ key with ⟨e, he, hfe, hl⟩ | ⟨hnone, -⟩
    · rw [hl]
      have hkey : e.1 = a := hf e.1 a key hfe hfa
      have hle : m.lookup e.1 = some e.2 := AList.mem_lookup_iff.mpr he
      rw [hkey, hla] at hle
      exact hle.symm
    · exact absurd hfa (hnone ⟨a, value⟩ hmem)

/-- Appending a scope is injective on keys. -/
theorem append_scope_injective (a b scope : String) (h : a ++ scope = b ++ scope) : a = b := by
  have hd := congrArg String.data h
  rw [String.data_append, String.data_append] at hd
  exact String.ext (List.append_cancel_right hd)

/-- What a key reads in the result of `AddAnnotationScope`. -/
theorem addAnnotationScope_get (scope : AnnotationScope) (m : Annotations)
    (key value : String) :
    annotationsGet (AddAnnotationScope scope (some m)) key = some value ↔
      ∃ a, a ++ scope = key ∧ m.lookup a = some value := by
  have h := lookup_foldl_insert_iff (fun k => some (k ++ scope))
    (fun a b k ha hb => append_scope_injective a b scope
      ((Option.some.inj ha).trans (Option.some.inj hb).symm)) m key value
  simp only [Option.some.injEq] at h
  exact h

/-- What a key reads in the result of `ParseAnnotationsOfScope` for the root scope. -/
theorem parseAnnotationsOfScope_root_get (scopeSuffix : String) (m : Annotations)
    (key value : String) :
    annotationsGet (ParseAnnotationsOfScope scopeSuffix RootScope (some m)) key = some value ↔
      m.lookup key = some value ∧ HasSuffix key scopeSuffix = false := by
  have hstep : (fun (annotations : Annotations) (e : Sigma fun _ : String => String) =>
        if HasSuffix e.1 scopeSuffix then annotations else annotations.insert e.1 e.2) =
      (fun (acc : Annotations) e =>
        match (if HasSuffix e.1 scopeSuffix then none else some e.1 : Option String) with
        | some k => acc.insert k e.2
        | none => acc) := by
    funext acc e
    by_cases hs : HasSuffix e.1 scopeSuffix = true
    · simp only [hs, if_true]
    · simp only [hs, if_false, Bool.false_eq_true]
  have h := lookup_foldl_insert_iff
    (fun k => if HasSuffix k scopeSuffix then none else some k)
    (fun a b k ha hb => by
      by_cases h1 : HasSuffix a scopeSuffix = true
      · simp [h1] at ha
      · by_cases h2 : HasSuffix b scopeSuffix = true
        · simp [h2] at hb
        · simp only [h1, h2, if_false, Bool.false_eq_true, Option.some.injEq] at ha hb
          exact ha.trans hb.symm) m key value
  unfold ParseAnnotationsOfScope annotationsGet
  simp only [if_true]
  rw [hstep, h]
  constructor
  · rintro ⟨a, ha, hl⟩
    by_cases h1 : HasSuffix a scopeSuffix = true
    · simp [h1] at ha
    · simp only [h1, if_false, Bool.false_eq_true, Option.some.injEq] at ha
      subst ha
      exact ⟨hl, Bool.eq_false_iff.mpr h1⟩
  · rintro ⟨hl, hs⟩
    exact ⟨key, by simp [hs], hl⟩

/-- What a key reads in the result of `ParseAnnotationsOfScope` for a scope other than
the root scope. -/
theorem parseAnnotationsOfScope_scope_get (scopeSuffix : String) (scope : AnnotationScope)
    (hscope : scope ≠ RootScope) (m : Annotations) (key value : String) :
    annotationsGet (ParseAnnotationsOfScope scopeSuffix scope (some m)) key = some value ↔
      m.lookup (key ++ scope) = some value := by
  have hstep : (fun (annotations : Annotations) (e : Sigma fun _ : String => String) =>
        if HasSuffix e.1 scope then annotations.insert (TrimSuffix e.1 scope) e.2
        else annotations) =
      (fun (acc : Annotations) e =>
        match (if HasSuffix e.1 scope then some (TrimSuffix e.1 scope) else none :
          Option String) with
        | some k => acc.insert k e.2
        | none => acc) := by
    funext acc e
    by_cases hs : HasSuffix e.1 scope = true
    · simp only [hs, if_true]
    · simp only [hs, if_false, Bool.false_eq_true]
  have hkey : ∀ a k, (if HasSuffix a scope then some (TrimSuffix a scope) else none) = some k →
      a = k ++ scope := by
    intro a k ha
    by_cases h1 : HasSuffix a scope = true
    · simp only [h1, if_true, Option.some.injEq] at ha
      rw [← ha, trimSuffix_append_self a scope h1]
    · simp [h1] at ha
  have h := lookup_foldl_insert_iff
    (fun k => if HasSuffix k scope then some (TrimSuffix k scope) else none)
    (fun a b k ha hb => (hkey a k ha).trans (hkey b k hb).symm) m key value
  unfold ParseAnnotationsOfScope annotationsGet
  simp only [hscope, if_false]
  rw [hstep, h]
  constructor
  · rintro ⟨a, ha, hl⟩
    rw [← hkey a key ha]
    exact hl
  · intro hl
    refine ⟨key ++ scope, ?_, hl⟩
    simp [(trimSuffix_append key scope).1, (trimSuffix_append key scope).2]

/-- C16 (annotation scope round trip): for every scope other than the root scope and
every annotation map, adding the scope and parsing it again gives a map with the same
keys and values: every key reads in it what it reads in the given map, and it is nil
exactly when the given map is. -/
theorem parseAnnotationsOfScope_addAnnotationScope (scopeSuffix : String)
    (scope : AnnotationScope) (hscope : scope ≠ RootScope) (m : Option Annotations) :
    (∀ key, annotationsGet
        (ParseAnnotationsOfScope scopeSuffix scope (AddAnnotationScope scope m)) key =
      annotationsGet m key) ∧
    ((ParseAnnotationsOfScope scopeSuffix scope (AddAnnotationScope scope m)).isNone =
      m.isNone) := by
  cases m with
  | none => exact ⟨fun _ => rfl, rfl⟩
  | some m =>
    refine ⟨fun key => ?_, ?_⟩
    · apply Option.ext
      intro value
      rw [Option.mem_def, Option.mem_def]
      obtain ⟨added, hadded⟩ : ∃ added, AddAnnotationScope scope (some m) = some added :=
        ⟨_, rfl⟩
      have hadd := addAnnotationScope_get scope m (key ++ scope) value
      rw [hadded] at hadd ⊢
      rw [parseAnnotationsOfScope_scope_get scopeSuffix scope hscope]
      refine hadd.trans ⟨?_, fun hl => ⟨key, rfl, hl⟩⟩
      rintro ⟨a, ha, hl⟩
      rw [← append_scope_injective a key scope ha]
      exact hl
    · unfold ParseAnnotationsOfScope AddAnnotationScope
      simp only [hscope, if_false]
      rfl

/-- Witness for C16: two annotations under the scope `.svc.rsm`. -/
theorem parseAnnotationsOfScope_addAnnotationScope_witness :
    annotationsGet
      (ParseAnnotationsOfScope ".rsm" ".svc.rsm"
        (AddAnnotationScope ".svc.rsm"
          (some (((∅ : Annotations).insert "owner" "team-a").insert "tier" "gold"))))
      "owner" = some "team-a" :=
  ((parseAnnotationsOfScope_addAnnotationScope ".rsm" ".svc.rsm" (by decide)
    (some (((∅ : Annotations).insert "owner" "team-a").insert "tier" "gold"))).1 "owner").trans
    (by decide)

/-- C17: for the root scope `ParseAnnotationsOfScope` returns exactly the entries whose
key does not end with the scope suffix, keys and values unchanged; for any other scope
it returns exactly the entries `(k, v)` such that the given map has `v` under the key `k`
followed by the scope. -/
theorem parseAnnotationsOfScope_entries (scopeSuffix : String) (scope : AnnotationScope)
    (m : Option Annotations) (key value : String) :
    annotationsGet (ParseAnnotationsOfScope scopeSuffix scope m) key = some value ↔
      if scope = RootScope then
        annotationsGet m key = some value ∧ HasSuffix key scopeSuffix = false
      else annotationsGet m (key ++ scope) = some value := by
  cases m with
  | none =>
    have hnone : ParseAnnotationsOfScope scopeSuffix scope none = none := rfl
    rw [hnone]
    by_cases hscope : scope = RootScope
    · simp [annotationsGet, hscope]
    · simp [annotationsGet, hscope]
  | some m =>
    by_cases hscope : scope = RootScope
    · subst hscope
      rw [if_pos rfl]
      exact parseAnnotationsOfScope_root_get scopeSuffix m key value
    · rw [if_neg hscope]
      exact parseAnnotationsOfScope_scope_get scopeSuffix scope hscope m key value

/-! ## Theorems: replica names -/

/-- A digit character is a decimal digit and has the value it was made from. -/
theorem digitChar_spec (d : Nat) (hd : d < 10) :
    (digitChar d).isDigit = true ∧ digitValue (digitChar d) = d := by
  interval_cases d <;> exact ⟨rfl, rfl⟩

/-- Reading digits that end with one more digit. -/
theorem parseDigitsFrom_append_digit (n : Nat) (digits : List Char) (c : Char)
    (hc : c.isDigit = true) :
    parseDigitsFrom n (digits ++ [c]) =
      (parseDigitsFrom n digits).map (fun v => v * 10 + digitValue c) := by
  induction digits generalizing n with
  | nil => simp [parseDigitsFrom, hc]
  | cons x rest ih =>
    simp only [List.cons_append, parseDigitsFrom]
    split
    · exact ih _
    · rfl

/-- The digits written for a number are decimal digits, at least one, and read back as
the number. -/
theorem formatNatDigits_spec (fuel n : Nat) (hfuel : n < fuel) :
    formatNatDigits fuel n ≠ [] ∧ (∀ c ∈ formatNatDigits fuel n, c.isDigit = true) ∧
    parseDigitsFrom 0 (formatNatDigits fuel n) = some n := by
  induction fuel generalizing n with
  | zero => exact absurd hfuel (Nat.not_lt_zero _)
  | succ fuel ih =>
    unfold formatNatDigits
    by_cases hn : n < 10
    · rw [if_pos hn]
      obtain ⟨h1, h2⟩ := digitChar_spec n hn
      refine ⟨by simp, ?_, ?_⟩
      · intro c hc
        rw [List.mem_singleton.mp hc]
        exact h1
      · simp [parseDigitsFrom, h1, h2]
    · rw [if_neg hn]
      have hdiv : n / 10 < fuel := by omega
      obtain ⟨-, ih2, ih3⟩ := ih (n / 10) hdiv
      obtain ⟨h1, h2⟩ := digitChar_spec (n % 10) (Nat.mod_lt _ (by decide))
      refine ⟨by simp, ?_, ?_⟩
      · intro c hc
        rcases List.mem_append.mp hc with h | h
        · exact ih2 c h
        · rw [List.mem_singleton.mp h]
          exact h1
      · rw [parseDigitsFrom_append_digit _ _ _ h1, ih3, h2]
        simp only [Option.map_some', Option.some.injEq]
        omega

/-- The regular expression matches every text that ends with a hyphen followed by one or
more decimal digits, and the second group is those digits. -/
theorem findStringSubmatch_of_suffix (s : String) (before digits : List Char)
    (hs : s.data = before ++ '-' :: digits) (hne : digits ≠ [])
    (hdigits : ∀ c ∈ digits, c.isDigit = true) :
    ∃ whole group1, podNameRegexFindStringSubmatch s = some [whole, group1, String.mk digits] := by
  have hrev : s.data.reverse = digits.reverse ++ '-' :: before.reverse := by
    rw [hs]
    simp
  have hpos : ∀ a ∈ digits.reverse, Char.isDigit a = true :=
    fun a ha => hdigits a (List.mem_reverse.mp ha)
  have hhyphen : ¬ Char.isDigit '-' = true := by decide
  unfold podNameRegexFindStringSubmatch
  simp only [hrev, List.takeWhile_append_of_pos hpos, List.dropWhile_append_of_pos hpos,
    List.takeWhile_cons_of_neg hhyphen, List.dropWhile_cons_of_neg hhyphen,
    List.append_nil, List.reverse_reverse, ne_eq, hne, not_false_eq_true, and_self, if_true]
  exact ⟨_, _, rfl⟩

/-- The regular expression matches only texts that end with a hyphen followed by one or
more decimal digits. -/
theorem suffix_of_findStringSubmatch (s : String) (subMatches : List String)
    (h : podNameRegexFindStringSubmatch s = some subMatches) :
    ∃ before digits, s.data = before ++ '-' :: digits ∧ digits ≠ [] ∧
      ∀ c ∈ digits, c.isDigit = true := by
  unfold podNameRegexFindStringSubmatch at h
  have hsplit := List.takeWhile_append_dropWhile Char.isDigit s.data.reverse
  cases hdrop : s.data.reverse.dropWhile Char.isDigit with
  | nil => simp [hdrop] at h
  | cons c before =>
    simp only [hdrop] at h
    split at h
    · rename_i hcond
      refine ⟨before.reverse, (s.data.reverse.takeWhile Char.isDigit).reverse, ?_, hcond.2, ?_⟩
      · rw [hdrop, hcond.1] at hsplit
        have := congrArg List.reverse hsplit
        simpa using this.symm
      · intro x hx
        exact List.mem_takeWhile_imp (List.mem_reverse.mp hx)
    · cases h

/-- The regular expression matches exactly the texts that end with a hyphen followed by
one or more decimal digits. -/
theorem findStringSubmatch_isSome_iff (s : String) :
    (podNameRegexFindStringSubmatch s).isSome = true ↔
      ∃ before digits, s.data = before ++ '-' :: digits ∧ digits ≠ [] ∧
        ∀ c ∈ digits, c.isDigit = true := by
  constructor
  · intro h
    obtain ⟨subMatches, hsub⟩ := Option.isSome_iff_exists.mp h
    exact suffix_of_findStringSubmatch s subMatches hsub
  · rintro ⟨before, digits, hs, hne, hdigits⟩
    obtain ⟨whole, group1, hsub⟩ := findStringSubmatch_of_suffix s before digits hs hne hdigits
    rw [hsub]
    rfl

/-- `strconv.Atoi` reads back the digits written for a number within the `int` range. -/
theorem atoi_formatNatDigits (m : Nat) (hm : m < 2 ^ 63) :
    Atoi (String.mk (formatNatDigits (m + 1) m)) = ((m : Int), none) := by
  obtain ⟨hne, hdigits, hparse⟩ := formatNatDigits_spec (m + 1) m (Nat.lt_succ_self m)
  unfold Atoi
  cases hds : formatNatDigits (m + 1) m with
  | nil => exact absurd hds hne
  | cons c rest =>
    have hc : c.isDigit = true := hdigits c (by rw [hds]; simp)
    have hminus : (c == '-') = false := by
      rw [beq_eq_false_iff_ne]
      rintro rfl
      exact absurd hc (by decide)
    have hplus : (c == '+') = false := by
      rw [beq_eq_false_iff_ne]
      rintro rfl
      exact absurd hc (by decide)
    rw [hds] at hparse
    have hlt : m < 9223372036854775808 := by
      have h2 : (2 : Nat) ^ 63 = 9223372036854775808 := by norm_num
      omega
    simp [hminus, hplus, hparse, hlt]

/-- C18: for every parent name and every ordinal from 0 up to the largest `int`,
`getPodName` gives the parent, a hyphen and the ordinal in decimal (digits that read back
as the ordinal), and `getPodOrdinal` of that name succeeds and returns the ordinal. -/
theorem getPodOrdinal_getPodName (parent : String) (n : Int) (h0 : 0 ≤ n) (hmax : n < 2 ^ 63) :
    getPodName parent n = parent ++ "-" ++ formatInt n ∧
    ((∀ c ∈ (formatInt n).data, c.isDigit = true) ∧
      parseDigitsFrom 0 (formatInt n).data = some n.toNat) ∧
    getPodOrdinal (getPodName parent n) = (n, none) := by
  obtain ⟨m, rfl⟩ := Int.eq_ofNat_of_zero_le h0
  have hm : m < 2 ^ 63 := by exact_mod_cast hmax
  obtain ⟨hne, hdigits, hparse⟩ := formatNatDigits_spec (m + 1) m (Nat.lt_succ_self m)
  refine ⟨rfl, ⟨hdigits, hparse⟩, ?_⟩
  have hdata : (getPodName parent (m : Int)).data =
      parent.data ++ '-' :: formatNatDigits (m + 1) m := by
    show (parent ++ "-" ++ String.mk (formatNatDigits (m + 1) m)).data = _
    simp [String.data_append]
  obtain ⟨whole, group1, hsub⟩ := findStringSubmatch_of_suffix _ _ _ hdata hne hdigits
  unfold getPodOrdinal
  rw [hsub]
  simp [atoi_formatNatDigits m hm]

/-- Witness for C18: pod 12 of `db`. -/
theorem getPodOrdinal_getPodName_witness :
    getPodName "db" 12 = "db-12" ∧ getPodOrdinal "db-12" = (12, none) :=
  ⟨by decide, (getPodOrdinal_getPodName "db" 12 (by decide) (by decide)).2.2⟩

/-- C19: for every pod name that does not end with a hyphen followed by one or more
decimal digits, `getPodOrdinal` returns the wrong-pod-name error (and the ordinal 0). -/
theorem getPodOrdinal_wrong_name (podName : String)
    (h : ¬ ∃ before digits, podName.data = before ++ '-' :: digits ∧ digits ≠ [] ∧
      ∀ c ∈ digits, c.isDigit = true) :
    getPodOrdinal podName = (0, some (.WrongPodName podName)) := by
  have hnone : podNameRegexFindStringSubmatch podName = none := by
    cases hsub : podNameRegexFindStringSubmatch podName with
    | none => rfl
    | some subMatches => exact absurd (suffix_of_findStringSubmatch podName subMatches hsub) h
  unfold getPodOrdinal
  rw [hnone]

/-- Witness for C19: the names `pod`, `pod-`, `pod-1a` and the empty name. -/
theorem getPodOrdinal_wrong_name_witness :
    getPodOrdinal "pod-1a" = (0, some (.WrongPodName "pod-1a")) ∧
    getPodOrdinal "pod" = (0, some (.WrongPodName "pod")) ∧
    getPodOrdinal "pod-" = (0, some (.WrongPodName "pod-")) ∧
    getPodOrdinal "" = (0, some (.WrongPodName "")) :=
  ⟨getPodOrdinal_wrong_name "pod-1a"
      (fun h => absurd ((findStringSubmatch_isSome_iff "pod-1a").mpr h) (by decide)),
    getPodOrdinal_wrong_name "pod"
      (fun h => absurd ((findStringSubmatch_isSome_iff "pod").mpr h) (by decide)),
    getPodOrdinal_wrong_name "pod-"
      (fun h => absurd ((findStringSubmatch_isSome_iff "pod-").mpr h) (by decide)),
    getPodOrdinal_wrong_name ""
      (fun h => absurd ((findStringSubmatch_isSome_iff "").mpr h) (by decide))⟩

/-! ## Theorems: readiness and member roles -/

/-- With roles and a role probe declared, a ready instance set has as many members as
declared replicas, and one of them is ready without primary or carries a leader role. -/
theorem isInstanceSetReady_members (rsm : InstanceSet) (hroles : rsm.Spec.Roles ≠ none)
    (hprobe : rsm.Spec.RoleProbe ≠ none) (hready : IsInstanceSetReady (some rsm) = true) :
    (∃ replicas, rsm.Spec.Replicas = some replicas ∧
      (rsm.Status.MembersStatus.length : Int) = replicas) ∧
    ((∃ m ∈ rsm.Status.MembersStatus, m.ReadyWithoutPrimary = true) ∨
     (∃ m ∈ rsm.Status.MembersStatus, ∃ role,
        m.ReplicaRole = some role ∧ role.IsLeader = true)) := by
  obtain ⟨-, -, replicas, hspec, -, -, h⟩ := (isInstanceSetReady_some_iff rsm).mp hready
  rcases h with h | h | ⟨hlen, hmem⟩
  · exact absurd h hroles
  · exact absurd h hprobe
  · exact ⟨⟨replicas, hspec, hlen⟩, hmem⟩

/-- Counterexample to C20 as stated: roles and a role probe are declared, all three
replicas are members and the first one is the leader, so `IsInstanceSetReady` returns
true; the two other members have no role set. The loop stops at the first leader (or
member ready without primary) and never looks at the role of the other members. -/
theorem isInstanceSetReady_with_unassigned_members :
    readyWithUnassignedMembers.Spec.Roles ≠ none ∧
    readyWithUnassignedMembers.Spec.RoleProbe ≠ none ∧
    IsInstanceSetReady (some readyWithUnassignedMembers) = true ∧
    (readyWithUnassignedMembers.Status.MembersStatus.length : Int) = 3 ∧
    ∃ m ∈ readyWithUnassignedMembers.Status.MembersStatus, m.ReplicaRole = none := by
  refine ⟨by decide, by decide, by decide, by decide, ?_⟩
  exact ⟨⟨"db-1", none, true, false⟩, by decide, rfl⟩

/-! ## Theorems: members status -/

/-- The role map reads, under a key, the last declared role whose lower-cased name is the
key. -/
theorem lookup_foldl_insert_role (ToLower : String → String) (roles : List ReplicaRole)
    (key : String) :
    (roles.foldl (fun (roleMap : AList (fun _ : String => ReplicaRole)) role =>
        roleMap.insert (ToLower role.Name) role) ∅).lookup key =
      roles.reverse.find? (fun role => ToLower role.Name == key) := by
  induction roles using List.reverseRecOn with
  | nil => rfl
  | append_singleton roles role ih =>
    rw [List.foldl_append, List.reverse_append, List.reverse_singleton, List.singleton_append,
      List.foldl_cons, List.foldl_nil, List.find?_cons]
    by_cases h : ToLower role.Name = key
    · have hb : (ToLower role.Name == key) = true := by simpa using h
      rw [hb, ← h]
      exact AList.lookup_insert _
    · have hb : (ToLower role.Name == key) = false := by simpa using h
      rw [hb, AList.lookup_insert_ne (Ne.symm h)]
      exact ih

/-- The role map of an instance set with declared roles. -/
theorem lookup_composeRoleMap (ToLower : String → String) (rsm : InstanceSet)
    (roles : List ReplicaRole) (hroles : rsm.Spec.Roles = some roles) (key : String) :
    (composeRoleMap ToLower rsm).lookup key =
      roles.reverse.find? (fun role => ToLower role.Name == key) := by
  unfold composeRoleMap
  rw [hroles]
  exact lookup_foldl_insert_role ToLower roles key

/-- A loop that appends a member for some of the pods collects those members in the
order of the pods. -/
theorem foldl_eq_filterMap {α β : Type} (step : List β → α → List β) (g : α → Option β)
    (hstep : ∀ acc item, step acc item = acc ++ (g item).toList) (items : List α)
    (acc : List β) :
    items.foldl step acc = acc ++ items.filterMap g := by
  induction items generalizing acc with
  | nil => simp
  | cons x xs ih =>
    rw [List.foldl_cons, ih, hstep]
    cases hg : g x with
    | none => simp [List.filterMap_cons, hg]
    | some b => simp [List.filterMap_cons, hg]

/-- The loop of `SetMembersStatus` computes, pod by pod, the member of the
specification. -/
theorem composeMembersStatus_eq_filterMap (ToLower : String → String) (helpers : PodHelpers)
    (rsm : InstanceSet) (roles : List ReplicaRole) (hroles : rsm.Spec.Roles = some roles)
    (pods : List Pod) :
    composeMembersStatus ToLower helpers (composeRoleMap ToLower rsm) pods =
      pods.filterMap (specMemberStatus ToLower helpers roles) := by
  unfold composeMembersStatus
  refine (foldl_eq_filterMap _ (specMemberStatus ToLower helpers roles) ?_ pods []).trans
    (List.nil_append _)
  intro acc pod
  unfold specMemberStatus
  dsimp only
  rw [lookup_composeRoleMap ToLower rsm roles hroles]
  by_cases hready : helpers.PodIsReadyWithLabel pod = true
  · simp only [hready, Bool.not_true, Bool.false_eq_true, if_false, if_true]
    cases roles.reverse.find? (fun role => ToLower role.Name == GetRoleName ToLower helpers pod)
      with
    | none => simp
    | some role =>
      simp only [Option.toList_some]
      congr 3
      cases annotationsGet pod.Labels helpers.ReadyWithoutPrimaryKey with
      | none => simp
      | some value => simp [beq_eq_decide]
  · simp [hready]

/-- Every member of the specification has a role. -/
theorem specMemberStatus_role (ToLower : String → String) (helpers : PodHelpers)
    (roles : List ReplicaRole) (pod : Pod) (m : MemberStatus)
    (h : specMemberStatus ToLower helpers roles pod = some m) :
    ∃ role, m.ReplicaRole = some role ∧
      roles.reverse.find? (fun role => ToLower role.Name == GetRoleName ToLower helpers pod) =
        some role := by
  unfold specMemberStatus at h
  split at h
  · split at h
    · rename_i role hfind
      refine ⟨role, ?_, hfind⟩
      rw [← Option.some.inj h]
    · cases h
  · cases h

/-- The sort of `SetMembersStatus` does not panic on members that all have a role. -/
theorem sortMembersStatus_of_roles (membersStatus : List MemberStatus)
    (rolePriorityMap : PriorityMap)
    (h : ∀ m ∈ membersStatus, ∃ role, m.ReplicaRole = some role) :
    sortMembersStatus membersStatus rolePriorityMap =
      some (sortMembers membersStatus rolePriorityMap
        (fun m => match m.ReplicaRole with
          | some role => role.Name
          | none => "")
        (fun m => (getPodOrdinal m.PodName).1) true) := by
  unfold sortMembersStatus
  have hany : membersStatus.any (fun m => m.ReplicaRole.isNone) = false := by
    rw [List.any_eq_false]
    intro m hm
    obtain ⟨role, hrole⟩ := h m hm
    simp [hrole]
  simp [hany]

/-- With roles declared, `SetMembersStatus` stores the sorted members of the
specification. -/
theorem setMembersStatus_eq (ToLower : String → String) (helpers : PodHelpers)
    (rsm : InstanceSet) (roles : List ReplicaRole) (hroles : rsm.Spec.Roles = some roles)
    (pods : List Pod) :
    SetMembersStatus ToLower helpers rsm pods =
      some { rsm with Status := { rsm.Status with
        MembersStatus := sortMembers (pods.filterMap (specMemberStatus ToLower helpers roles))
          (ComposeRolePriorityMap ToLower roles)
          (fun m => match m.ReplicaRole with
            | some role => role.Name
            | none => "")
          (fun m => (getPodOrdinal m.PodName).1) true } } := by
  have hall : ∀ m ∈ pods.filterMap (specMemberStatus ToLower helpers roles),
      ∃ role, m.ReplicaRole = some role := by
    intro m hm
    obtain ⟨pod, -, hpod⟩ := List.mem_filterMap.mp hm
    obtain ⟨role, hrole, -⟩ := specMemberStatus_role ToLower helpers roles pod m hpod
    exact ⟨role, hrole⟩
  unfold SetMembersStatus
  simp only [hroles]
  rw [composeMembersStatus_eq_filterMap ToLower helpers rsm roles hroles pods,
    sortMembersStatus_of_roles _ _ hall]

/-- C21: when roles are declared, `SetMembersStatus` does not fail and sets
`Status.MembersStatus` to a list that holds, up to its order, exactly one member per pod
that is ready with a role label and whose lower-cased role label is the lower-cased name
of a declared role: pod name, `Ready = true`, that role (the last declared one of that
name), and `ReadyWithoutPrimary` true exactly when the ready-without-primary label is
`true`. A pod of any other kind, such as one labelled with an undeclared role, gets no
member and does not stop the loop. Nothing else of the instance set changes. -/
theorem setMembersStatus_members (ToLower : String → String) (helpers : PodHelpers)
    (rsm : InstanceSet) (roles : List ReplicaRole) (hroles : rsm.Spec.Roles = some roles)
    (pods : List Pod) :
    ∃ members, SetMembersStatus ToLower helpers rsm pods =
        some { rsm with Status := { rsm.Status with MembersStatus := members } } ∧
      members.Perm (pods.filterMap (specMemberStatus ToLower helpers roles)) :=
  ⟨_, setMembersStatus_eq ToLower helpers rsm roles hroles pods, sliceStable_perm _ _⟩

/-- Witness for C21: a leader, a follower, a pod labelled with the undeclared role
`observer` and a pod without labels; the two declared pods become members. -/
theorem setMembersStatus_members_witness :
    ∃ members, SetMembersStatus asciiToLower sampleHelpers capitalRoles
        [podWithRole "db-0" "leader", podWithRole "db-1" "observer",
          podWithRole "db-2" "Follower", ⟨"db-3", none⟩] =
        some { capitalRoles with
          Status := { capitalRoles.Status with MembersStatus := members } } ∧
      members.Perm
        [⟨"db-0", some ⟨"Leader", true, ReadWriteMode, true⟩, true, false⟩,
          ⟨"db-2", some ⟨"Follower", false, ReadonlyMode, true⟩, true, false⟩] := by
  obtain ⟨members, h1, h2⟩ := setMembersStatus_members asciiToLower sampleHelpers capitalRoles
    [⟨"Leader", true, ReadWriteMode, true⟩, ⟨"Follower", false, ReadonlyMode, true⟩] rfl
    [podWithRole "db-0" "leader", podWithRole "db-1" "observer",
      podWithRole "db-2" "Follower", ⟨"db-3", none⟩]
  refine ⟨members, h1, h2.trans ?_⟩
  have h3 : List.filterMap (specMemberStatus asciiToLower sampleHelpers
      [⟨"Leader", true, ReadWriteMode, true⟩, ⟨"Follower", false, ReadonlyMode, true⟩])
      [podWithRole "db-0" "leader", podWithRole "db-1" "observer",
        podWithRole "db-2" "Follower", ⟨"db-3", none⟩] =
      [⟨"db-0", some ⟨"Leader", true, ReadWriteMode, true⟩, true, false⟩,
        ⟨"db-2", some ⟨"Follower", false, ReadonlyMode, true⟩, true, false⟩] := by decide
  rw [h3]

/-- The priority the sort of `SetMembersStatus` reads for a member of the specification
is the tier of its role, when every declared role name is its own lower-cased form and
every access mode is one of the three constants. -/
theorem mapIndex_member_of_lowercase (ToLower : String → String) (helpers : PodHelpers)
    (roles : List ReplicaRole) (hlower : ∀ r ∈ roles, ToLower r.Name = r.Name)
    (hmode : ∀ r ∈ roles, r.AccessMode = NoneMode ∨ r.AccessMode = ReadonlyMode ∨
      r.AccessMode = ReadWriteMode)
    (pods : List Pod) (m : MemberStatus)
    (hm : m ∈ pods.filterMap (specMemberStatus ToLower helpers roles)) :
    mapIndex (ComposeRolePriorityMap ToLower roles)
      (match m.ReplicaRole with
        | some role => role.Name
        | none => "") = memberTier m := by
  obtain ⟨pod, -, hpod⟩ := List.mem_filterMap.mp hm
  obtain ⟨role, hrole, hfind⟩ := specMemberStatus_role ToLower helpers roles pod m hpod
  have hmem : role ∈ roles := List.mem_reverse.mp (List.mem_of_find?_eq_some hfind)
  have hkey : ToLower role.Name = GetRoleName ToLower helpers pod := by
    have := List.find?_some hfind
    simpa using this
  have hlookup := lookup_composeRolePriorityMap_of_last ToLower roles _ role hmode hfind
  rw [← hkey, hlower role hmem] at hlookup
  unfold mapIndex memberTier
  rw [hrole]
  simp only []
  rw [hlookup]
  rfl

/-- When every declared role name is its own lower-cased form and every access mode is one
of the three constants, the list `SetMembersStatus` stores is ordered by the tier of the
role descending (leader first, learner last) and, among members of equal tier, by the
pod ordinal descending. -/
theorem setMembersStatus_sorted_of_lowercase (ToLower : String → String)
    (helpers : PodHelpers) (rsm : InstanceSet) (roles : List ReplicaRole)
    (hroles : rsm.Spec.Roles = some roles)
    (hlower : ∀ r ∈ roles, ToLower r.Name = r.Name)
    (hmode : ∀ r ∈ roles, r.AccessMode = NoneMode ∨ r.AccessMode = ReadonlyMode ∨
      r.AccessMode = ReadWriteMode)
    (pods : List Pod) :
    ∃ members, SetMembersStatus ToLower helpers rsm pods =
        some { rsm with Status := { rsm.Status with MembersStatus := members } } ∧
      members.Pairwise (fun a b =>
        memberTier a > memberTier b ∨
        (memberTier a = memberTier b ∧
          (getPodOrdinal a.PodName).1 ≥ (getPodOrdinal b.PodName).1)) := by
  refine ⟨_, setMembersStatus_eq ToLower helpers rsm roles hroles pods, ?_⟩
  have hsorted := sortMembers_reverse_sorted
    (pods.filterMap (specMemberStatus ToLower helpers roles))
    (ComposeRolePriorityMap ToLower roles)
    (fun m => match m.ReplicaRole with
      | some role => role.Name
      | none => "")
    (fun m => (getPodOrdinal m.PodName).1)
  refine hsorted.imp_of_mem ?_
  intro a b ha hb hab
  have hperm := sliceStable_perm (sortMembersLess (ComposeRolePriorityMap ToLower roles)
    (fun m : MemberStatus => match m.ReplicaRole with
      | some role => role.Name
      | none => "")
    (fun m => (getPodOrdinal m.PodName).1) true)
    (pods.filterMap (specMemberStatus ToLower helpers roles))
  have ha' := mapIndex_member_of_lowercase ToLower helpers roles hlower hmode pods a
    (hperm.mem_iff.mp ha)
  have hb' := mapIndex_member_of_lowercase ToLower helpers roles hlower hmode pods b
    (hperm.mem_iff.mp hb)
  unfold memberKey at hab
  rw [ha', hb'] at hab
  rcases (Prod.Lex.le_iff _ _).mp hab with h | ⟨h1, h2⟩
  · exact Or.inl h
  · exact Or.inr ⟨h1.symm, h2⟩

/-- C22, the code at the failing input: the roles are declared as `Leader` and `Follower`.
The priority map has the keys `leader` and `follower`, but the sort reads it under the
names as declared, finds nothing and gives every member priority 0, so only the ordinals
decide: the two followers come first and the leader (tier 32) comes last. -/
theorem setMembersStatus_leader_last :
    (SetMembersStatus asciiToLower sampleHelpers capitalRoles
      [podWithRole "db-0" "leader", podWithRole "db-1" "follower",
        podWithRole "db-2" "follower"]).map
      (fun rsm => rsm.Status.MembersStatus.map (fun m => (m.PodName, memberTier m))) =
      some [("db-2", followerReadonlyPriority), ("db-1", followerReadonlyPriority),
        ("db-0", leaderPriority)] ∧
    followerReadonlyPriority < leaderPriority := by
  decide

/-! ## Theorems: action names -/

/-- Two texts that start with decimal digits followed by a hyphen are equal only when the
digits are the same and what follows the hyphen is the same. -/
theorem digits_hyphen_cancel (d₁ d₂ r₁ r₂ : List Char)
    (h₁ : ∀ c ∈ d₁, c.isDigit = true) (h₂ : ∀ c ∈ d₂, c.isDigit = true)
    (h : d₁ ++ '-' :: r₁ = d₂ ++ '-' :: r₂) : d₁ = d₂ ∧ r₁ = r₂ := by
  have hhyphen : ¬ Char.isDigit '-' = true := by decide
  induction d₁ generalizing d₂ with
  | nil =>
    cases d₂ with
    | nil => exact ⟨rfl, (List.cons.inj h).2⟩
    | cons c cs =>
      have hc : c = '-' := (List.cons.inj h).1.symm
      exact absurd (hc ▸ h₂ c (List.mem_cons_self _ _)) hhyphen
  | cons x xs ih =>
    cases d₂ with
    | nil =>
      have hx : x = '-' := (List.cons.inj h).1
      exact absurd (hx ▸ h₁ x (List.mem_cons_self _ _)) hhyphen
    | cons c cs =>
      obtain ⟨hxc, hrest⟩ := List.cons.inj h
      obtain ⟨hd, hr⟩ := ih cs (fun a ha => h₁ a (List.mem_cons_of_mem _ ha))
        (fun a ha => h₂ a (List.mem_cons_of_mem _ ha)) hrest
      exact ⟨by rw [hxc, hd], hr⟩

/-- The decimal digits written for two natural numbers are the same only for the same
number. -/
theorem formatNatDigits_injective (m k : Nat)
    (h : formatNatDigits (m + 1) m = formatNatDigits (k + 1) k) : m = k := by
  have hm := (formatNatDigits_spec (m + 1) m (Nat.lt_succ_self m)).2.2
  have hk := (formatNatDigits_spec (k + 1) k (Nat.lt_succ_self k)).2.2
  rw [h, hk] at hm
  exact (Option.some.inj hm).symm

/-- The characters of an action name. -/
theorem getActionName_data (parent : String) (g o : Nat) (actionType : String) :
    (getActionName parent (g : Int) (o : Int) actionType).data =
      parent.data ++ '-' :: (formatNatDigits (g + 1) g ++
        '-' :: (formatNatDigits (o + 1) o ++ '-' :: actionType.data)) := by
  show (parent ++ "-" ++ String.mk (formatNatDigits (g + 1) g) ++ "-" ++
    String.mk (formatNatDigits (o + 1) o) ++ "-" ++ actionType).data = _
  simp [String.data_append]

/-- C23: for a fixed parent name and non-negative generations and ordinals, two action
names are equal exactly when generation, ordinal and action type are equal. -/
theorem getActionName_injective (parent : String) (g₁ g₂ o₁ o₂ : Int) (t₁ t₂ : String)
    (hg₁ : 0 ≤ g₁) (hg₂ : 0 ≤ g₂) (ho₁ : 0 ≤ o₁) (ho₂ : 0 ≤ o₂) :
    getActionName parent g₁ o₁ t₁ = getActionName parent g₂ o₂ t₂ ↔
      g₁ = g₂ ∧ o₁ = o₂ ∧ t₁ = t₂ := by
  constructor
  · intro h
    obtain ⟨a₁, rfl⟩ := Int.eq_ofNat_of_zero_le hg₁
    obtain ⟨a₂, rfl⟩ := Int.eq_ofNat_of_zero_le hg₂
    obtain ⟨b₁, rfl⟩ := Int.eq_ofNat_of_zero_le ho₁
    obtain ⟨b₂, rfl⟩ := Int.eq_ofNat_of_zero_le ho₂
    have hd := congrArg String.data h
    rw [getActionName_data, getActionName_data] at hd
    have hrest := List.cons.inj (List.append_cancel_left hd)
    obtain ⟨hgen, hrest₂⟩ := digits_hyphen_cancel _ _ _ _
      (formatNatDigits_spec (a₁ + 1) a₁ (Nat.lt_succ_self a₁)).2.1
      (formatNatDigits_spec (a₂ + 1) a₂ (Nat.lt_succ_self a₂)).2.1 hrest.2
    obtain ⟨hord, htype⟩ := digits_hyphen_cancel _ _ _ _
      (formatNatDigits_spec (b₁ + 1) b₁ (Nat.lt_succ_self b₁)).2.1
      (formatNatDigits_spec (b₂ + 1) b₂ (Nat.lt_succ_self b₂)).2.1 hrest₂
    refine ⟨?_, ?_, String.ext htype⟩
    · rw [formatNatDigits_injective a₁ a₂ hgen]
    · rw [formatNatDigits_injective b₁ b₂ hord]
  · rintro ⟨rfl, rfl, rfl⟩
    rfl

/-- Witness for C23: the names of `promote` for generation 4 and ordinal 1 and of
`promote` for generation 41 and ordinal 1 differ, and the name of the first is
`db-4-1-promote`. -/
theorem getActionName_injective_witness :
    getActionName "db" 4 1 "promote" = "db-4-1-promote" ∧
    getActionName "db" 4 1 "promote" ≠ getActionName "db" 41 1 "promote" :=
  ⟨by decide, fun h =>
    absurd ((getActionName_injective "db" 4 41 1 1 "promote" "promote"
      (by decide) (by decide) (by decide) (by decide)).mp h).1 (by decide)⟩

/-! ## Theorems: finalizer error -/

/-- The errors of `CopyOwnership` are the errors of its loop. -/
theorem copyOwnership_error (owner obj : Object) (finalizer : String) :
    (CopyOwnership owner obj finalizer).2 =
      (copyControllerRefs owner.OwnerReferences obj).2 := by
  cases hl : copyControllerRefs owner.OwnerReferences obj with
  | mk o err =>
    cases err with
    | some e => rw [copyOwnership_of_loop_error owner obj o finalizer e hl]
    | none => rw [copyOwnership_of_loop_ok owner obj o finalizer hl]

/-- C24: `CopyOwnership` never returns `ErrFailedToAddFinalizer`: `AddFinalizer` is only
called on a target that does not contain the finalizer, where it always updates the
finalizer list and reports so; every error `CopyOwnership` returns is the
ownership-conflict error. -/
theorem copyOwnership_finalizer_error_unreachable (owner obj : Object) (finalizer : String) :
    (CopyOwnership owner obj finalizer).2 ≠ some .ErrFailedToAddFinalizer ∧
    (∀ err, (CopyOwnership owner obj finalizer).2 = some err →
      ∃ existing, err = .AlreadyOwnedError existing) ∧
    (∀ target : Object, ContainsFinalizer target finalizer = false →
      (AddFinalizer target finalizer).2 = true ∧
      (AddFinalizer target finalizer).1.Finalizers ≠ target.Finalizers) := by
  have herr : ∀ err, (CopyOwnership owner obj finalizer).2 = some err →
      ∃ existing, err = .AlreadyOwnedError existing := by
    intro err h
    rw [copyOwnership_error] at h
    exact copyControllerRefs_error owner.OwnerReferences obj err h
  refine ⟨?_, herr, ?_⟩
  · intro h
    obtain ⟨existing, hex⟩ := herr _ h
    cases hex
  · intro target hcontains
    unfold ContainsFinalizer at hcontains
    unfold AddFinalizer
    rw [hcontains]
    refine ⟨rfl, ?_⟩
    intro h
    have hlen := congrArg List.length h
    simp at hlen

/-! ## Theorems: readiness, empty role lists and stored member lists -/

/-- Counterexample to C1 as stated: the instance set declares an empty, non-nil list of
roles, so no roles are declared, and every generation and counter check passes; the
source tests `Spec.Roles == nil`, goes on to the member check, finds three members
without leader and returns false. -/
theorem isInstanceSetReady_empty_roles_no_leader :
    (emptyRolesDeclared [⟨"db-0", none, true, false⟩, ⟨"db-1", none, true, false⟩,
      ⟨"db-2", none, true, false⟩]).Spec.Roles = some [] ∧
    (emptyRolesDeclared [⟨"db-0", none, true, false⟩, ⟨"db-1", none, true, false⟩,
      ⟨"db-2", none, true, false⟩]).Status.ReadyInitReplicas = 3 ∧
    (emptyRolesDeclared [⟨"db-0", none, true, false⟩, ⟨"db-1", none, true, false⟩,
      ⟨"db-2", none, true, false⟩]).Status.InitReplicas = 3 ∧
    (emptyRolesDeclared [⟨"db-0", none, true, false⟩, ⟨"db-1", none, true, false⟩,
      ⟨"db-2", none, true, false⟩]).Generation = 2 ∧
    (emptyRolesDeclared [⟨"db-0", none, true, false⟩, ⟨"db-1", none, true, false⟩,
      ⟨"db-2", none, true, false⟩]).Status.ObservedGeneration = 2 ∧
    (emptyRolesDeclared [⟨"db-0", none, true, false⟩, ⟨"db-1", none, true, false⟩,
      ⟨"db-2", none, true, false⟩]).Status.CurrentGeneration = 2 ∧
    (emptyRolesDeclared [⟨"db-0", none, true, false⟩, ⟨"db-1", none, true, false⟩,
      ⟨"db-2", none, true, false⟩]).Spec.Replicas = some 3 ∧
    (emptyRolesDeclared [⟨"db-0", none, true, false⟩, ⟨"db-1", none, true, false⟩,
      ⟨"db-2", none, true, false⟩]).Status.Replicas = 3 ∧
    (emptyRolesDeclared [⟨"db-0", none, true, false⟩, ⟨"db-1", none, true, false⟩,
      ⟨"db-2", none, true, false⟩]).Status.ReadyReplicas = 3 ∧
    (emptyRolesDeclared [⟨"db-0", none, true, false⟩, ⟨"db-1", none, true, false⟩,
      ⟨"db-2", none, true, false⟩]).Status.UpdatedReplicas = 3 ∧
    (emptyRolesDeclared [⟨"db-0", none, true, false⟩, ⟨"db-1", none, true, false⟩,
      ⟨"db-2", none, true, false⟩]).Spec.MinReadySeconds = 0 ∧
    IsInstanceSetReady (some (emptyRolesDeclared [⟨"db-0", none, true, false⟩,
      ⟨"db-1", none, true, false⟩, ⟨"db-2", none, true, false⟩])) = false := by
  decide

/-- Counterexample to C3 as stated: the instance set declares an empty, non-nil list of
roles, so no roles are declared, and passes the bootstrap, generation, replica-counter
and min-ready-seconds checks with three replicas; for the empty member list the source
takes the roles branch, compares the member count with the replicas and returns
false. -/
theorem isInstanceSetReady_empty_roles_empty_members :
    (emptyRolesDeclared []).Spec.Roles = some [] ∧
    (emptyRolesDeclared []).Status.ReadyInitReplicas =
      (emptyRolesDeclared []).Status.InitReplicas ∧
    (emptyRolesDeclared []).Status.ObservedGeneration = (emptyRolesDeclared []).Generation ∧
    (emptyRolesDeclared []).Status.CurrentGeneration = (emptyRolesDeclared []).Generation ∧
    (emptyRolesDeclared []).Spec.Replicas = some 3 ∧
    (emptyRolesDeclared []).Status.Replicas = 3 ∧
    (emptyRolesDeclared []).Status.ReadyReplicas = 3 ∧
    (emptyRolesDeclared []).Status.UpdatedReplicas = 3 ∧
    (emptyRolesDeclared []).Spec.MinReadySeconds = 0 ∧
    IsInstanceSetReady (some (emptyRolesDeclared [])) = false := by
  decide

/-- The members stored without roles have no role and are not ready without primary. -/
theorem setMembersStatusWithoutRole_members (helpers : PodHelpers) (rsm : InstanceSet)
    (pods : List Pod) (m : MemberStatus)
    (hm : m ∈ (setMembersStatusWithoutRole helpers rsm pods).Status.MembersStatus) :
    m.ReplicaRole = none ∧ m.ReadyWithoutPrimary = false := by
  unfold setMembersStatusWithoutRole at hm
  dsimp only at hm
  have hmem := (sliceStable_perm _ _).mem_iff.mp hm
  have heq := foldl_eq_filterMap
    (fun (membersStatus : List MemberStatus) (pod : Pod) =>
      membersStatus ++ [⟨pod.Name, none, helpers.IsPodReady pod, false⟩])
    (fun pod : Pod => some (⟨pod.Name, none, helpers.IsPodReady pod, false⟩ : MemberStatus))
    (fun _ _ => rfl) pods []
  rw [List.nil_append] at heq
  have hmem₂ : m ∈ pods.filterMap
      (fun pod : Pod =>
        some (⟨pod.Name, none, helpers.IsPodReady pod, false⟩ : MemberStatus)) := by
    rw [← heq]
    exact hmem
  obtain ⟨pod, -, hpod⟩ := List.mem_filterMap.mp hmem₂
  rw [← Option.some.inj hpod]
  exact ⟨rfl, rfl⟩

/-- In a member list stored by `SetMembersStatus`, either every member has a role, or no
member has a role and none is ready without primary. -/
theorem setMembersStatus_roles_all_or_none (ToLower : String → String) (helpers : PodHelpers)
    (source written : InstanceSet) (pods : List Pod)
    (hwritten : SetMembersStatus ToLower helpers source pods = some written) :
    (∀ m ∈ written.Status.MembersStatus, ∃ role, m.ReplicaRole = some role) ∨
    (∀ m ∈ written.Status.MembersStatus,
      m.ReplicaRole = none ∧ m.ReadyWithoutPrimary = false) := by
  cases hroles : source.Spec.Roles with
  | none =>
    right
    have h : SetMembersStatus ToLower helpers source pods =
        some (setMembersStatusWithoutRole helpers source pods) := by
      unfold SetMembersStatus
      rw [hroles]
    rw [h] at hwritten
    rw [← Option.some.inj hwritten]
    exact fun m hm => setMembersStatusWithoutRole_members helpers source pods m hm
  | some roles =>
    left
    rw [setMembersStatus_eq ToLower helpers source roles hroles pods] at hwritten
    rw [← Option.some.inj hwritten]
    intro m hm
    have hmem := (sliceStable_perm _ _).mem_iff.mp hm
    obtain ⟨pod, -, hpod⟩ := List.mem_filterMap.mp hmem
    obtain ⟨role, hrole, -⟩ := specMemberStatus_role ToLower helpers roles pod m hpod
    exact ⟨role, hrole⟩

/-- C20, as the code has it: for every instance set that declares roles and a role probe,
if `IsInstanceSetReady` returns true then the member list has as many members as
declared replicas and holds a member that is ready without primary or a leader; and
when the member list is one that `SetMembersStatus` stored, every member has a role
set. -/
theorem isInstanceSetReady_stored_members_have_roles (rsm : InstanceSet)
    (hroles : rsm.Spec.Roles ≠ none) (hprobe : rsm.Spec.RoleProbe ≠ none)
    (hready : IsInstanceSetReady (some rsm) = true) :
    (∃ replicas, rsm.Spec.Replicas = some replicas ∧
      (rsm.Status.MembersStatus.length : Int) = replicas) ∧
    ((∃ m ∈ rsm.Status.MembersStatus, m.ReadyWithoutPrimary = true) ∨
     (∃ m ∈ rsm.Status.MembersStatus, ∃ role,
        m.ReplicaRole = some role ∧ role.IsLeader = true)) ∧
    (∀ (ToLower : String → String) (helpers : PodHelpers) (source written : InstanceSet)
      (pods : List Pod),
      SetMembersStatus ToLower helpers source pods = some written →
      rsm.Status.MembersStatus = written.Status.MembersStatus →
      ∀ m ∈ rsm.Status.MembersStatus, ∃ role, m.ReplicaRole = some role) := by
  obtain ⟨hcount, hsome⟩ := isInstanceSetReady_members rsm hroles hprobe hready
  refine ⟨hcount, hsome, ?_⟩
  intro ToLower helpers source written pods hwritten hlist
  rcases setMembersStatus_roles_all_or_none ToLower helpers source written pods hwritten
    with hall | hnone
  · rw [hlist]
    exact hall
  · rw [hlist] at hsome
    rcases hsome with ⟨m, hm, hrwp⟩ | ⟨m, hm, role, hrole, -⟩
    · rw [(hnone m hm).2] at hrwp
      cases hrwp
    · rw [(hnone m hm).1] at hrole
      cases hrole

/-- Witness for C20: the status refresh over a leader pod and two follower pods stores
three members; the instance set is then ready and each member has a role. -/
theorem isInstanceSetReady_stored_members_have_roles_witness :
    SetMembersStatus asciiToLower sampleHelpers readyWithUnassignedMembers
      [podWithRole "db-0" "leader", podWithRole "db-1" "follower",
        podWithRole "db-2" "follower"] = some refreshedMembers ∧
    IsInstanceSetReady (some refreshedMembers) = true ∧
    (refreshedMembers.Status.MembersStatus.length : Int) = 3 ∧
    ∀ m ∈ refreshedMembers.Status.MembersStatus, ∃ role, m.ReplicaRole = some role :=
  ⟨by decide, by decide, by decide,
    (isInstanceSetReady_stored_members_have_roles refreshedMembers (by decide) (by decide)
      (by decide)).2.2 asciiToLower sampleHelpers readyWithUnassignedMembers refreshedMembers
      [podWithRole "db-0" "leader", podWithRole "db-1" "follower",
        podWithRole "db-2" "follower"] (by decide) rfl⟩

end Rsm
